import Mathlib

/-!
# JointMove: a shallow embedding of `JointMoveProto.cpp`

The controller class `TLeyson_Robot::JointMove` drives one joint of a robot arm
over a serial link.  The embedding below follows the C++ source function by
function.

Modelling conventions.

* `double` values are exact rationals (`ℚ`).
* `char` is the signed 8-bit type of the Windows tool chain the source is
  written for (`windows.h`, `_itoa_s`, `Sleep`); a `char` value is an `Int`
  kept in `[-128, 127]` by `toChar`.  `int` is 32 bits (`toInt`) and
  `unsigned int` is 32 bits (`toUnsigned`).
* The serial link is an append-only trace of the calls made on the `Tserial`
  object, and the bytes the device is going to deliver are a finite list that
  `getChar` consumes from the front.  `getChar` is a blocking read: when the
  list is exhausted the calling function never returns (`blocked`).
* Every function that touches the link takes the world (`PortFree` and the
  trace) and the pending device bytes, and gives back what is left of them.
-/

set_option linter.dupNamespace false

namespace TLeyson_Robot

/-! ## Machine integers -/

/-- Conversion of an integer value to `char` (signed, 8 bits, wrapping). -/
def toChar (x : Int) : Int := (x + 128) % 256 - 128

/-- Conversion of an integer value to `int` (signed, 32 bits, wrapping). -/
def toInt (x : Int) : Int := (x + 2147483648) % 4294967296 - 2147483648

/-- Conversion of an integer value to `unsigned int` (32 bits). -/
def toUnsigned (x : Int) : Nat := (x % 4294967296).toNat

/-- Bitwise `&` of two `char` operands, stored back into a `char`: only the low
eight bits of the promoted operands reach the result. -/
def charAnd (a b : Int) : Int :=
  toChar (Int.ofNat (Nat.land (a % 256).toNat (b % 256).toNat))

/-- The conversion `static_cast<int>(double)`: truncation toward zero.  A value
whose truncation does not fit an `int` has no defined result in C++; the
embedding gives it the x86 "integer indefinite" value `INT_MIN`. -/
def static_cast_int (x : ℚ) : Int :=
  let t : Int := if 0 ≤ x then ⌊x⌋ else ⌈x⌉
  if -2147483648 ≤ t ∧ t ≤ 2147483647 then t else -2147483648

/-- The conversion `char(double)` (truncation toward zero, then the low byte). -/
def static_cast_char (x : ℚ) : Int :=
  toChar (if 0 ≤ x then ⌊x⌋ else ⌈x⌉)

/-- The C library `toupper` on the ASCII range. -/
def toupper (c : Int) : Int := if 97 ≤ c ∧ c ≤ 122 then c - 32 else c

/-! ## C strings -/

/-- The characters of a NUL-terminated `char` array, up to the first NUL. -/
def cstr (s : List Int) : List Int := s.takeWhile (fun c => c ≠ 0)

/-- The call `strcat_s(dst, 9, src)`: the string in `dst` followed by the string
in `src` (every call in the source stays within the nine bytes). -/
def strcat_s (dst src : List Int) : List Int := cstr dst ++ cstr src ++ [0]

/-- The call `_itoa_s(value, TickString, 4, 10)`: the decimal digits of `value`,
with a leading minus sign for a negative value, NUL-terminated.  The source only
converts values between 0 and 50, which fit the four-byte buffer. -/
def _itoa_s (value : Int) : List Int :=
  (if value < 0 then [45] else []) ++
    (Nat.toDigits 10 value.natAbs).map (fun d => Int.ofNat d.toNat) ++ [0]

/-! ## The serial link -/

/-- One call made on the `Tserial` object, or a `Sleep`. -/
inductive Event where
  | sendChar (c : Int)
  | sendString (s : List Int)
  | getChar (c : Int)
  | Sleep (ms : Nat)
  deriving DecidableEq, Repr

/-- The program state outside the controller object: the static member
`JointMove::PortFree` and the trace of the link so far. -/
structure World where
  PortFree : Bool
  trace : List Event
  deriving DecidableEq, Repr

/-- Modelled from the spec: `operator<<(Tserial&, char)`, whose body is not part
of the sources; the transport's `sendBytes` of a single byte. -/
def World.sendChar (w : World) (c : Int) : World :=
  { w with trace := w.trace ++ [Event.sendChar c] }

/-- Modelled from the spec: `operator<<(Tserial&, char*)`, whose body is not
part of the sources; the transport's `sendBytes` of the C string's characters. -/
def World.sendString (w : World) (s : List Int) : World :=
  { w with trace := w.trace ++ [Event.sendString (cstr s)] }

/-- Modelled from the spec: `Tserial::getChar` delivering the byte `c`, whose
body is not part of the sources; the transport's blocking `receiveByte`. -/
def World.getChar (w : World) (c : Int) : World :=
  { w with trace := w.trace ++ [Event.getChar c] }

/-- The call `Sleep(ms)`. -/
def World.Sleep (w : World) (ms : Nat) : World :=
  { w with trace := w.trace ++ [Event.Sleep ms] }

/-- Result of a helper that talks to the link: it returns a value, the world
and the device bytes not yet read, or it never returns. -/
inductive Step (α : Type) where
  | ok (val : α) (w : World) (device : List Int)
  | blocked (w : World)
  deriving DecidableEq, Repr

/-! ## The controller -/

/-- The data members of `class JointMove` (the `ComPort` pointer is the link
that every function receives explicitly). -/
structure JointMove where
  JointToMove : Int
  UpperBound : ℚ
  LowerBound : ℚ
  HomePosition : ℚ
  HomeDeviation : Int
  CurrentPosition : ℚ
  Resolution : ℚ
  SwitchMask : Int
  deriving DecidableEq, Repr

/-- The exceptions of the class. -/
inductive Exception where
  | FileNotFoundException
  | ValueNotFoundException
  | BoundaryViolationException
  deriving DecidableEq, Repr

/-- How a public member function ends: it returns, it throws, or it never
returns.  Each case carries the controller and the world at that point. -/
inductive Outcome where
  | returned (ret : Int) (j : JointMove) (w : World) (device : List Int)
  | thrown (e : Exception) (j : JointMove) (w : World) (device : List Int)
  | blocked (j : JointMove) (w : World)
  deriving DecidableEq, Repr

def GROUP_SIZE : Nat := 50

def REPLENISH : Nat := 15

/-- The function `JointMove::CheckSwitch`. -/
def JointMove.CheckSwitch (j : JointMove) (w : World) (device : List Int) : Step Int :=
  match device with
  | [] => Step.blocked (w.sendChar 73)
  | c :: rest =>
    let SwitchCheck := toChar c
    let SwitchCheck := toChar (SwitchCheck - 32)
    Step.ok (charAnd SwitchCheck j.SwitchMask) ((w.sendChar 73).getChar (toChar c)) rest

/-- The function `JointMove::Round`. -/
def JointMove.Round (TickPosition : ℚ) : Int :=
  let TruncatedPosition : Int := static_cast_int TickPosition
  let DecimalPart : ℚ := TickPosition - TruncatedPosition
  if |DecimalPart| ≥ 1 / 2 then
    if TickPosition > 0 then toInt (TruncatedPosition + 1)
    else if TickPosition < 0 then toInt (TruncatedPosition - 1)
    else TruncatedPosition
  else TruncatedPosition

/-- The function `JointMove::ConvertToTicks`. -/
def JointMove.ConvertToTicks (j : JointMove) (AngularPosition : ℚ) : ℚ :=
  AngularPosition / j.Resolution

/-- The function `JointMove::DivideTicks`: the vector holds the number of whole
groups and, when there is one, the size of the odd group.  The parameter is an
`int` and `GROUP_SIZE` is `unsigned`, so both operations are unsigned. -/
def JointMove.DivideTicks (NumberOfTicks : Int) : List Int :=
  let WholeGroups : Nat := toUnsigned NumberOfTicks / GROUP_SIZE
  let TickGroups : List Int := [toInt WholeGroups]
  if toUnsigned NumberOfTicks % GROUP_SIZE ≠ 0 then
    TickGroups ++ [toInt (Int.ofNat (toUnsigned NumberOfTicks % GROUP_SIZE))]
  else TickGroups

/-- The assignment `RegisterValue = abs(ComPort->getChar()); RegisterValue -= 32;`
of `JointMove::Move`, for the byte `c` read from the link. -/
def registerValue (c : Int) : Int := toChar (toChar |toChar c| - 32)

/-- The inner loop `while ( RegisterValue > REPLENISH )` of `JointMove::Move`.
`REPLENISH` is `unsigned`, so the `char` is compared as an `unsigned int`. -/
def replenishLoop (QueryString : List Int) : Int → World → List Int → Step Unit
  | RegisterValue, w, [] =>
    if toUnsigned RegisterValue > REPLENISH then
      Step.blocked ((w.Sleep 10).sendString QueryString)
    else Step.ok () w []
  | RegisterValue, w, c :: rest =>
    if toUnsigned RegisterValue > REPLENISH then
      replenishLoop QueryString (registerValue c)
        (((w.Sleep 10).sendString QueryString).getChar (toChar c)) rest
    else Step.ok () w (c :: rest)

/-- The loop `for ( unsigned int k = TickGroups.front(); k > 0; k-- )` of
`JointMove::Move`, by recursion on `k`. -/
def wholeGroupsLoop (QueryString EvenCommand Newline : List Int) :
    Nat → World → List Int → Step Unit
  | 0, w, device => Step.ok () w device
  | k + 1, w, device =>
    match device with
    | [] => Step.blocked (w.sendString QueryString)
    | c :: rest =>
      match replenishLoop QueryString (registerValue c)
          ((w.sendString QueryString).getChar (toChar c)) rest with
      | Step.blocked w1 => Step.blocked w1
      | Step.ok _ w1 device1 =>
        wholeGroupsLoop QueryString EvenCommand Newline k
          ((w1.sendString EvenCommand).sendString Newline) device1

/-- The function `JointMove::Move`. -/
def JointMove.Move (j : JointMove) (w : World) (device : List Int)
    (AngularPosition : ℚ) : Outcome :=
  if ¬ (AngularPosition > j.LowerBound ∧ AngularPosition < j.UpperBound) then
    Outcome.thrown Exception.BoundaryViolationException j w device
  else if j.CurrentPosition = AngularPosition then
    Outcome.returned 0 j w device
  else
    let DesiredPosition : Int := JointMove.Round (j.ConvertToTicks AngularPosition)
    let TotalTicks : Int := toInt (DesiredPosition - j.HomeDeviation)
    let MovementDirection : Int := if AngularPosition > j.CurrentPosition then 43 else 45
    let Newline : List Int := [10, 13, 0]
    let EvenCommand : List Int := [j.JointToMove, MovementDirection, 0]
    let UnevenCommand : List Int := [j.JointToMove, MovementDirection, 0]
    let TickGroups : List Int := JointMove.DivideTicks (toInt |TotalTicks|)
    let w1 : World :=
      if TickGroups.length = 2 then
        let OddGroup : Int := TickGroups.getLastD 0
        (w.sendString (strcat_s UnevenCommand (_itoa_s OddGroup))).sendString Newline
      else w
    let TickGroups : List Int :=
      if TickGroups.length = 2 then TickGroups.dropLast else TickGroups
    let EvenCommand : List Int := strcat_s EvenCommand (_itoa_s (Int.ofNat GROUP_SIZE))
    let QueryString : List Int := [j.JointToMove, 63, 10, 13, 0]
    match wholeGroupsLoop QueryString EvenCommand Newline
        (toUnsigned (TickGroups.headD 0)) w1 device with
    | Step.blocked w2 => Outcome.blocked j w2
    | Step.ok _ w2 device2 =>
      Outcome.returned 0
        { j with HomeDeviation := DesiredPosition, CurrentPosition := AngularPosition }
        w2 device2

/-- The loop `while (SwitchStatus)` of `JointMove::Home`; the call of
`CheckSwitch` at the end of the body is unfolded, see `jogLoop_eq`. -/
def jogLoop (j : JointMove) (Move : List Int) : Int → World → List Int → Step Unit
  | SwitchStatus, w, [] =>
    if SwitchStatus ≠ 0 then
      Step.blocked ((((w.sendString Move).Sleep 300)).sendChar 73)
    else Step.ok () w []
  | SwitchStatus, w, c :: rest =>
    if SwitchStatus ≠ 0 then
      jogLoop j Move (charAnd (toChar (toChar c - 32)) j.SwitchMask)
        ((((w.sendString Move).Sleep 300).sendChar 73).getChar (toChar c)) rest
    else Step.ok () w (c :: rest)

/-- The function `JointMove::Home`.  The loop `while (!PortFree);` has an empty
body: it falls through when the flag is set and spins forever otherwise. -/
def JointMove.Home (j : JointMove) (w : World) (device : List Int) : Outcome :=
  let Move : List Int := [j.JointToMove, 43, 50, 48, 10, 13, 0]
  let Stop : List Int := [j.JointToMove, 88, 10, 13, 0]
  match j.CheckSwitch w device with
  | Step.blocked w1 => Outcome.blocked j w1
  | Step.ok SwitchStatus w1 device1 =>
    if ¬ w1.PortFree then Outcome.blocked j w1
    else
      let w2 : World := { w1 with PortFree := false }
      match jogLoop j Move SwitchStatus w2 device1 with
      | Step.blocked w3 => Outcome.blocked j w3
      | Step.ok _ w3 device3 =>
        let w4 : World := w3.sendString Stop
        Outcome.returned 0 j { w4 with PortFree := true } device3

/-- The constructor `JointMove::JointMove`.  `Resolution` stands for the value
`atof(ReadFile(ResolutionFile).c_str())` of a calibration lookup that succeeds. -/
def JointMove.JointMove (Joint : Int) (UpperBound LowerBound : ℚ) (Resolution : ℚ)
    (w : World) (device : List Int) (LimitSwitch : Bool) (HomePosition : ℚ) : Outcome :=
  let JointToMove : Int := toupper Joint
  let this : TLeyson_Robot.JointMove :=
    { JointToMove := JointToMove
      UpperBound := UpperBound
      LowerBound := LowerBound
      HomePosition := HomePosition
      HomeDeviation := 0
      CurrentPosition := HomePosition
      Resolution := Resolution
      SwitchMask := static_cast_char ((2 : ℚ) ^ (JointToMove - 67)) }
  let w1 : World := { w with PortFree := true }
  if LimitSwitch then this.Home w1 device
  else Outcome.returned 0 this w1 device

/-- The loop `while ( ( CurrentPosition = infile.get() ) != this->JointToMove )`
of `JointMove::ReadFile`, followed by the `std::getline` that takes the characters
up to the next newline.  `infile.get()` at the end of the file yields `EOF`, which
the assignment stores as `char(-1)`; the comparison with `JointToMove` comes before
the test of `infile.fail()`, and `std::getline` on the failed stream reads nothing. -/
def scanFile (JointToMove : Int) : List Int → Except Exception (List Int)
  | [] =>
    if toChar (-1) ≠ JointToMove then Except.error Exception.ValueNotFoundException
    else Except.ok []
  | c :: rest =>
    if toChar c ≠ JointToMove then scanFile JointToMove rest
    else Except.ok (rest.takeWhile (fun x => x ≠ 10))

/-- The function `JointMove::ReadFile`, for the member `JointToMove` of the
controller under construction.  `file` is `none` when the file cannot be opened,
and otherwise the characters that the text stream delivers. -/
def JointMove.ReadFile (JointToMove : Int) (file : Option (List Int)) :
    Except Exception (List Int) :=
  match file with
  | none => Except.error Exception.FileNotFoundException
  | some content => scanFile JointToMove content

/-- The constructor `JointMove::JointMove` together with its calibration lookup:
`ReadFile` runs after `JointToMove` is set and before anything else happens, and
an exception it throws leaves no object.  `atof` is the C library function. -/
def JointMove.JointMove_ResolutionFile (atof : List Int → ℚ) (Joint : Int)
    (UpperBound LowerBound : ℚ) (ResolutionFile : Option (List Int))
    (w : World) (device : List Int) (LimitSwitch : Bool) (HomePosition : ℚ) :
    Except Exception Outcome :=
  match JointMove.ReadFile (toupper Joint) ResolutionFile with
  | Except.error e => Except.error e
  | Except.ok number =>
    Except.ok (JointMove.JointMove Joint UpperBound LowerBound (atof number)
      w device LimitSwitch HomePosition)

/-! ## Vocabulary of the statements -/

/-- Rounding to the nearest integer, halves away from zero, as the rounding rule
is worded: `floor(x + 1/2)` for `x ≥ 0` and `ceil(x - 1/2)` for `x < 0`. -/
def roundHalfAwayFromZero (x : ℚ) : Int :=
  if 0 ≤ x then ⌊x + 1 / 2⌋ else ⌈x - 1 / 2⌉

/-- The `DesiredPosition` local of `Move`. -/
def desiredPosition (j : JointMove) (a : ℚ) : Int := JointMove.Round (j.ConvertToTicks a)

/-- The `MovementDirection` local of `Move`. -/
def movementDirection (j : JointMove) (a : ℚ) : Int :=
  if a > j.CurrentPosition then 43 else 45

/-- The `TickGroups` local of `Move`, as `DivideTicks` returns it. -/
def tickGroups (j : JointMove) (a : ℚ) : List Int :=
  JointMove.DivideTicks (toInt |toInt (desiredPosition j a - j.HomeDeviation)|)

/-- The world after the `if ( TickGroups.size() == 2 )` block of `Move`. -/
def afterOddGroup (j : JointMove) (w : World) (a : ℚ) : World :=
  if (tickGroups j a).length = 2 then
    (w.sendString (strcat_s [j.JointToMove, movementDirection j a, 0]
      (_itoa_s ((tickGroups j a).getLastD 0)))).sendString [10, 13, 0]
  else w

/-- The initial value of `k` in the `for` loop of `Move`. -/
def wholeGroups (j : JointMove) (a : ℚ) : Nat :=
  toUnsigned ((if (tickGroups j a).length = 2 then (tickGroups j a).dropLast
    else tickGroups j a).headD 0)

/-- The value of a non-empty string of decimal ASCII digits. -/
def decimalValue (ds : List Int) : Option Nat :=
  if ds ≠ [] ∧ ds.all (fun c => decide (48 ≤ c ∧ c ≤ 57)) = true then
    some (ds.foldl (fun acc c => 10 * acc + (c - 48).toNat) 0)
  else none

/-- The tick count of a move command `<joint><direction><ticks>`, when the event
is the transmission of one for joint `J`. -/
def moveCommandTicks (J : Int) : Event → Option Nat
  | Event.sendString (c :: d :: ds) =>
    if c = J ∧ (d = 43 ∨ d = 45) then decimalValue ds else none
  | _ => none

/-- The tick counts of the move commands of a trace, in transmission order. -/
def transmittedTicks (J : Int) (tr : List Event) : List Nat :=
  tr.filterMap (moveCommandTicks J)

/-- The magnitude `n = |Round(angle / Resolution) - HomeDeviation|`. -/
def tickMagnitude (j : JointMove) (a : ℚ) : Nat :=
  (JointMove.Round (a / j.Resolution) - j.HomeDeviation).natAbs

/-- The exit test of the flow-control loop for a status byte `c`: the loop
`while ( RegisterValue > REPLENISH )` is not entered, or is left, on it. -/
def belowReplenish (c : Int) : Bool := decide (toUnsigned (registerValue c) ≤ REPLENISH)

/-- The events of one more turn of the flow-control loop, answered by `c`. -/
def requeryEvents (Q : List Int) (c : Int) : List Event :=
  [Event.Sleep 10, Event.sendString (cstr Q), Event.getChar (toChar c)]

/-- The events of the status queries before one whole group, answered in order
by the bytes of the list: the first query, then one re-query per further byte. -/
def queryEvents (Q : List Int) : List Int → List Event
  | [] => []
  | c :: cs =>
    [Event.sendString (cstr Q), Event.getChar (toChar c)] ++ cs.flatMap (requeryEvents Q)

/-- The events of one whole group: the status queries answered by the bytes
`seg.1` and then `seg.2`, followed at once by the group command and the newline. -/
def wholeGroupEvents (Q E N : List Int) (seg : List Int × Int) : List Event :=
  queryEvents Q (seg.1 ++ [seg.2]) ++ [Event.sendString (cstr E), Event.sendString (cstr N)]

/-- The occupancy that `Move` decodes from a status byte: the magnitude of the
byte, less the offset 32. -/
def occupancy (c : Int) : Int := |toChar c| - 32

/-- A controller for joint D with bounds (-1, 1), one hundredth of a radian per
tick, at its home position 0. -/
def jointD : JointMove :=
  { JointToMove := 68, UpperBound := 1, LowerBound := -1, HomePosition := 0,
    HomeDeviation := 0, CurrentPosition := 0, Resolution := 1 / 100, SwitchMask := 2 }

/-- The value `CheckSwitch` returns for the status byte `c`. -/
def switchStatus (j : JointMove) (c : Int) : Int :=
  charAnd (toChar (toChar c - 32)) j.SwitchMask

/-- The events of one call of `CheckSwitch` answered by the byte `c`. -/
def pollEvents (c : Int) : List Event := [Event.sendChar 73, Event.getChar (toChar c)]

/-- The jog command of `Home`, as transmitted. -/
def jogCommand (j : JointMove) : Event :=
  Event.sendString (cstr [j.JointToMove, 43, 50, 48, 10, 13, 0])

/-- The stop command of `Home`, as transmitted. -/
def stopCommand (j : JointMove) : Event :=
  Event.sendString (cstr [j.JointToMove, 88, 10, 13, 0])

/-- The events of one turn of the loop of `Home`: the jog command, the 300 ms
sleep, and the next poll, answered by `c`. -/
def jogEvents (j : JointMove) (c : Int) : List Event :=
  [jogCommand j, Event.Sleep 300] ++ pollEvents c

/-- The events of a call of `Home` whose polls are answered by `b0` and then by
the bytes of `bs`. -/
def homeEvents (j : JointMove) (b0 : Int) (bs : List Int) : List Event :=
  pollEvents b0 ++ bs.flatMap (jogEvents j) ++ [stopCommand j]

/-- The events of a call of `Home` whose polls are answered by the bytes of
`resp`, in order. -/
def homeEventsOf (j : JointMove) : List Int → List Event
  | [] => []
  | b0 :: bs => homeEvents j b0 bs

/-- A controller for joint D with bounds (0, 1) at its default home position 0,
as the constructor builds it without homing. -/
def jointAtBound : JointMove :=
  { JointToMove := 68, UpperBound := 1, LowerBound := 0, HomePosition := 0,
    HomeDeviation := 0, CurrentPosition := 0, Resolution := 1 / 100, SwitchMask := 2 }

/-- A controller for joint D with bounds (-1, 1) whose home position is 1/10, as
the constructor builds it without homing. -/
def jointOffHome : JointMove :=
  { JointToMove := 68, UpperBound := 1, LowerBound := -1, HomePosition := 1 / 10,
    HomeDeviation := 0, CurrentPosition := 1 / 10, Resolution := 1 / 100, SwitchMask := 2 }

/-- A controller for joint E with bounds (-1, 1), one hundredth of a radian per
tick, at its home position 0. -/
def jointE : JointMove :=
  { JointToMove := 69, UpperBound := 1, LowerBound := -1, HomePosition := 0,
    HomeDeviation := 0, CurrentPosition := 0, Resolution := 1 / 100, SwitchMask := 4 }

/-- The controller that an outcome carries. -/
def Outcome.controller : Outcome → JointMove
  | Outcome.returned _ j _ _ => j
  | Outcome.thrown _ j _ _ => j
  | Outcome.blocked j _ => j

/-- The world that an outcome carries. -/
def Outcome.world : Outcome → World
  | Outcome.returned _ _ w _ => w
  | Outcome.thrown _ _ w _ => w
  | Outcome.blocked _ w => w

/-- A mask with exactly one bit set: a power of two. -/
def singleBit (m : Int) : Prop := ∃ k : Nat, m = 2 ^ k

/-- The text of a calibration file made of lines of the documented form: each
line is a joint letter, a separator, the text of a number, and a newline. -/
def calibrationFile (lines : List (Int × Int × List Int)) : List Int :=
  lines.flatMap (fun l => l.1 :: l.2.1 :: l.2.2 ++ [10])

/-- The documented form of the lines: the letter is an upper-case letter, the
separator is a tab or a space, and the number text holds no newline. -/
def documentedForm (lines : List (Int × Int × List Int)) : Prop :=
  ∀ l ∈ lines, (65 ≤ l.1 ∧ l.1 ≤ 90) ∧ (l.2.1 = 9 ∨ l.2.1 = 32) ∧ ∀ c ∈ l.2.2, c ≠ 10

/-- The first line of the file for the joint letter `J`. -/
def lineOf (J : Int) (lines : List (Int × Int × List Int)) : Option (Int × Int × List Int) :=
  lines.find? (fun l => decide (l.1 = J))

/-- The two transmissions of `Move` for a group of `t` ticks: the command string
and the `Newline` string. -/
def moveCommandEvents (j : JointMove) (a : ℚ) (t : Nat) : List Event :=
  [Event.sendString (cstr (strcat_s [j.JointToMove, movementDirection j a, 0]
      (_itoa_s (Int.ofNat t)))),
    Event.sendString (cstr [10, 13, 0])]

/-- The bytes that the events of a trace put on the link, in order. -/
def sentBytes : List Event → List Int
  | [] => []
  | Event.sendChar c :: es => c :: sentBytes es
  | Event.sendString s :: es => s ++ sentBytes es
  | Event.getChar _ :: es => sentBytes es
  | Event.Sleep _ :: es => sentBytes es

/-- The signed tick count of a move command `<joint><direction><ticks>` for joint
`J`: positive for the direction `+`, negative for `-`. -/
def signedCommandTicks (J : Int) : Event → Option Int
  | Event.sendString (c :: d :: ds) =>
    if c = J then
      if d = 43 then (decimalValue ds).map (fun t => Int.ofNat t)
      else if d = 45 then (decimalValue ds).map (fun t => - Int.ofNat t)
      else none
    else none
  | _ => none

/-- The signed sum of the ticks of the move commands of a trace. -/
def signedTickSum (J : Int) (tr : List Event) : Int :=
  (tr.filterMap (signedCommandTicks J)).sum

/-- A caller making the calls `Move(a)` for the angles of the list, in order, and
going on after a `BoundaryViolationException`; `none` when one of the calls never
returns. -/
def moveSequence : JointMove → World → List Int → List ℚ →
    Option (JointMove × World × List Int)
  | j, w, device, [] => some (j, w, device)
  | j, w, device, a :: rest =>
    match j.Move w device a with
    | Outcome.returned _ j1 w1 device1 => moveSequence j1 w1 device1 rest
    | Outcome.thrown _ j1 w1 device1 => moveSequence j1 w1 device1 rest
    | Outcome.blocked _ _ => none

/-- The last angle of the list that lies strictly between the bounds. -/
def lastAccepted (LowerBound UpperBound : ℚ) (angles : List ℚ) : Option ℚ :=
  (angles.filter (fun a => decide (LowerBound < a ∧ a < UpperBound))).getLast?

/-! ## Lemmas and theorems -/

theorem toInt_eq_self {x : Int} (h1 : -2147483648 ≤ x) (h2 : x ≤ 2147483647) :
    toInt x = x := by
  unfold toInt; omega

theorem static_cast_int_nonneg {x : ℚ} (h0 : 0 ≤ x) (h2 : x ≤ 2147483647) :
    static_cast_int x = ⌊x⌋ := by
  have hf0 : (0 : Int) ≤ ⌊x⌋ := Int.floor_nonneg.mpr h0
  have hf1 : ⌊x⌋ ≤ 2147483647 := by
    have : ((⌊x⌋ : Int) : ℚ) ≤ 2147483647 := le_trans (Int.floor_le x) h2
    exact_mod_cast this
  simp only [static_cast_int, if_pos h0]
  rw [if_pos ⟨by omega, hf1⟩]

theorem static_cast_int_neg {x : ℚ} (h0 : x < 0) (h1 : -2147483648 ≤ x) :
    static_cast_int x = ⌈x⌉ := by
  have hc0 : ⌈x⌉ ≤ (0 : Int) := Int.ceil_le.mpr (by exact_mod_cast h0.le)
  have hc1 : -2147483648 ≤ ⌈x⌉ := by
    have : ((-2147483648 : Int) : ℚ) ≤ ((⌈x⌉ : Int) : ℚ) := by
      push_cast
      exact le_trans h1 (Int.le_ceil x)
    exact_mod_cast this
  simp only [static_cast_int, if_neg (not_le.mpr h0)]
  rw [if_pos ⟨hc1, by omega⟩]

theorem Round_nonneg {x : ℚ} (h0 : 0 ≤ x) (h2 : x ≤ 2147483647) :
    JointMove.Round x = ⌊x + 1 / 2⌋ := by
  have hfl := Int.floor_le x
  have hlt := Int.lt_floor_add_one x
  have hf0 : (0 : Int) ≤ ⌊x⌋ := Int.floor_nonneg.mpr h0
  unfold JointMove.Round
  simp only [static_cast_int_nonneg h0 h2]
  have habs : |x - (⌊x⌋ : ℚ)| = x - ⌊x⌋ := abs_of_nonneg (by linarith)
  rw [habs]
  by_cases hd : x - (⌊x⌋ : ℚ) ≥ 1 / 2
  · have hxpos : x > 0 := by
      have : (0 : ℚ) ≤ ((⌊x⌋ : Int) : ℚ) := by exact_mod_cast hf0
      linarith
    rw [if_pos hd, if_pos hxpos]
    have hb : ⌊x⌋ + 1 ≤ 2147483647 := by
      have : ((⌊x⌋ : Int) : ℚ) + 1 / 2 ≤ 2147483647 := by linarith
      have h3 : ((⌊x⌋ : Int) : ℚ) < ((2147483647 : Int) : ℚ) := by push_cast; linarith
      have h4 : ⌊x⌋ < 2147483647 := by exact_mod_cast h3
      omega
    rw [toInt_eq_self (by omega) hb]
    symm
    rw [Int.floor_eq_iff]
    push_cast
    constructor <;> linarith
  · rw [if_neg hd]
    symm
    rw [Int.floor_eq_iff]
    push_cast at hd ⊢
    constructor <;> linarith

theorem Round_neg {x : ℚ} (h0 : x < 0) (h1 : -2147483648 ≤ x) :
    JointMove.Round x = ⌈x - 1 / 2⌉ := by
  have hcl := Int.le_ceil x
  have hlt := Int.ceil_lt_add_one x
  have hc0 : ⌈x⌉ ≤ (0 : Int) := Int.ceil_le.mpr (by exact_mod_cast h0.le)
  unfold JointMove.Round
  simp only [static_cast_int_neg h0 h1]
  have habs : |x - (⌈x⌉ : ℚ)| = ⌈x⌉ - x := by
    rw [abs_of_nonpos (by linarith)]; ring
  rw [habs]
  by_cases hd : (⌈x⌉ : ℚ) - x ≥ 1 / 2
  · rw [if_pos hd, if_neg (not_lt.mpr h0.le), if_pos h0]
    have hb : -2147483648 ≤ ⌈x⌉ - 1 := by
      have h3 : ((-2147483648 : Int) : ℚ) < ((⌈x⌉ : Int) : ℚ) := by push_cast; linarith
      have h4 : -2147483648 < ⌈x⌉ := by exact_mod_cast h3
      omega
    rw [toInt_eq_self hb (by omega)]
    symm
    rw [Int.ceil_eq_iff]
    push_cast
    constructor <;> linarith
  · rw [if_neg hd]
    symm
    rw [Int.ceil_eq_iff]
    push_cast at hd ⊢
    constructor <;> linarith

theorem Round_eq_spec {x : ℚ} (h1 : -2147483648 ≤ x) (h2 : x ≤ 2147483647) :
    JointMove.Round x = roundHalfAwayFromZero x := by
  unfold roundHalfAwayFromZero
  by_cases h0 : 0 ≤ x
  · rw [if_pos h0, Round_nonneg h0 h2]
  · rw [if_neg h0, Round_neg (not_le.mp h0) h1]

theorem Round_near {x : ℚ} (h1 : -2147483648 ≤ x) (h2 : x ≤ 2147483647) :
    |x - (JointMove.Round x : ℚ)| ≤ 1 / 2 ∧
      (|x - (JointMove.Round x : ℚ)| = 1 / 2 → |x| < |(JointMove.Round x : ℚ)|) := by
  by_cases h0 : 0 ≤ x
  · rw [Round_nonneg h0 h2]
    have ha := Int.floor_le (x + 1 / 2)
    have hb := Int.lt_floor_add_one (x + 1 / 2)
    refine ⟨abs_le.mpr ⟨by linarith, by linarith⟩, fun ht => ?_⟩
    have hx : x - (⌊x + 1 / 2⌋ : ℚ) = -(1 / 2) := by
      rcases abs_eq (by norm_num : (0 : ℚ) ≤ 1 / 2) |>.mp ht with h | h
      · linarith
      · exact h
    rw [abs_of_nonneg h0, abs_of_nonneg (by linarith)]
    linarith
  · have hneg : x < 0 := not_le.mp h0
    rw [Round_neg hneg h1]
    have ha := Int.le_ceil (x - 1 / 2)
    have hb := Int.ceil_lt_add_one (x - 1 / 2)
    refine ⟨abs_le.mpr ⟨by linarith, by linarith⟩, fun ht => ?_⟩
    have hx : x - (⌈x - 1 / 2⌉ : ℚ) = 1 / 2 := by
      rcases abs_eq (by norm_num : (0 : ℚ) ≤ 1 / 2) |>.mp ht with h | h
      · exact h
      · linarith
    rw [abs_of_neg hneg, abs_of_neg (by linarith)]
    linarith

/-- C3. Within the `int` range, `Round` rounds to the nearest integer and
rounds halves away from zero. -/
theorem Round_half_away_from_zero (x : ℚ) (h1 : -2147483648 ≤ x) (h2 : x ≤ 2147483647) :
    JointMove.Round x = roundHalfAwayFromZero x ∧
      |x - (JointMove.Round x : ℚ)| ≤ 1 / 2 ∧
      (|x - (JointMove.Round x : ℚ)| = 1 / 2 → |x| < |(JointMove.Round x : ℚ)|) ∧
      (|x - (static_cast_int x : ℚ)| < 1 / 2 → JointMove.Round x = static_cast_int x) ∧
      (1 / 2 ≤ |x - (static_cast_int x : ℚ)| → 0 < x →
        JointMove.Round x = static_cast_int x + 1) ∧
      (1 / 2 ≤ |x - (static_cast_int x : ℚ)| → x < 0 →
        JointMove.Round x = static_cast_int x - 1) ∧
      JointMove.Round (5 / 2) = 3 ∧ JointMove.Round (-5 / 2) = -3 ∧
      JointMove.Round (12 / 5) = 2 ∧ JointMove.Round (-12 / 5) = -2 := by
  refine ⟨Round_eq_spec h1 h2, (Round_near h1 h2).1, (Round_near h1 h2).2, ?_, ?_, ?_,
    by decide!, by decide!, by decide!, by decide!⟩
  · intro h
    unfold JointMove.Round
    simp only [ge_iff_le, if_neg (not_le.mpr h)]
  · intro h hx
    have hr := Round_nonneg hx.le h2
    have hs := static_cast_int_nonneg hx.le h2
    have hfl := Int.floor_le x
    have hlt := Int.lt_floor_add_one x
    rw [hs] at h ⊢
    rw [hr, Int.floor_eq_iff]
    rw [abs_of_nonneg (by linarith)] at h
    push_cast
    constructor <;> linarith
  · intro h hx
    have hr := Round_neg hx h1
    have hs := static_cast_int_neg hx h1
    have hcl := Int.le_ceil x
    have hlt := Int.ceil_lt_add_one x
    rw [hs] at h ⊢
    rw [hr, Int.ceil_eq_iff]
    rw [abs_of_nonpos (by linarith)] at h
    push_cast
    constructor <;> linarith

theorem Round_half_away_from_zero_witness :
    JointMove.Round (7 / 2) = roundHalfAwayFromZero (7 / 2) ∧ JointMove.Round (7 / 2) = 4 :=
  ⟨(Round_half_away_from_zero (7 / 2) (by norm_num) (by norm_num)).1, by decide!⟩

theorem Move_of_accepted (j : JointMove) (w : World) (device : List Int) (a : ℚ)
    (hin : j.LowerBound < a ∧ a < j.UpperBound) (hne : j.CurrentPosition ≠ a) :
    j.Move w device a =
      match wholeGroupsLoop [j.JointToMove, 63, 10, 13, 0]
          (strcat_s [j.JointToMove, movementDirection j a, 0] (_itoa_s (Int.ofNat GROUP_SIZE)))
          [10, 13, 0] (wholeGroups j a) (afterOddGroup j w a) device with
      | Step.blocked w2 => Outcome.blocked j w2
      | Step.ok _ w2 device2 =>
        Outcome.returned 0
          { j with HomeDeviation := desiredPosition j a, CurrentPosition := a } w2 device2 := by
  unfold JointMove.Move
  rw [if_neg (not_not.mpr ⟨hin.1, hin.2⟩), if_neg hne]
  rfl

theorem Move_of_violation (j : JointMove) (w : World) (device : List Int) (a : ℚ)
    (hout : ¬ (j.LowerBound < a ∧ a < j.UpperBound)) :
    j.Move w device a = Outcome.thrown Exception.BoundaryViolationException j w device := by
  unfold JointMove.Move
  rw [if_pos (fun h => hout ⟨h.1, h.2⟩)]

theorem Move_of_same (j : JointMove) (w : World) (device : List Int)
    (hin : j.LowerBound < j.CurrentPosition ∧ j.CurrentPosition < j.UpperBound) :
    j.Move w device j.CurrentPosition = Outcome.returned 0 j w device := by
  unfold JointMove.Move
  rw [if_neg (not_not.mpr ⟨hin.1, hin.2⟩), if_pos rfl]

theorem Move_not_thrown (j : JointMove) (w : World) (device : List Int) (a : ℚ)
    (hin : j.LowerBound < a ∧ a < j.UpperBound) (e : Exception) (j' : JointMove)
    (w' : World) (d' : List Int) : j.Move w device a ≠ Outcome.thrown e j' w' d' := by
  by_cases hne : j.CurrentPosition = a
  · subst hne
    rw [Move_of_same j w device hin]
    intro h; cases h
  · rw [Move_of_accepted j w device a hin hne]
    split <;> intro h <;> cases h

/-- C1. `Move` throws `BoundaryViolationException` exactly for the angles that are
not strictly between the bounds. -/
theorem Move_BoundaryViolation_iff (j : JointMove) (w : World) (device : List Int) (a : ℚ) :
    ((∃ j' w' d', j.Move w device a =
        Outcome.thrown Exception.BoundaryViolationException j' w' d') ↔
      ¬ (j.LowerBound < a ∧ a < j.UpperBound)) ∧
    (∃ j' w' d', j.Move w device j.LowerBound =
        Outcome.thrown Exception.BoundaryViolationException j' w' d') ∧
    (∃ j' w' d', j.Move w device j.UpperBound =
        Outcome.thrown Exception.BoundaryViolationException j' w' d') := by
  have key : ∀ a : ℚ, (∃ j' w' d', j.Move w device a =
        Outcome.thrown Exception.BoundaryViolationException j' w' d') ↔
      ¬ (j.LowerBound < a ∧ a < j.UpperBound) := by
    intro a
    constructor
    · rintro ⟨j', w', d', h⟩ hin
      exact Move_not_thrown j w device a hin _ _ _ _ h
    · intro hout
      exact ⟨j, w, device, Move_of_violation j w device a hout⟩
  exact ⟨key a, (key _).mpr (fun h => lt_irrefl _ h.1), (key _).mpr (fun h => lt_irrefl _ h.2)⟩

theorem Move_BoundaryViolation_iff_witness :
    (∃ j' w' d', { jointD with CurrentPosition := 1 / 2, HomeDeviation := 50 }.Move
        ⟨true, []⟩ [] 1 = Outcome.thrown Exception.BoundaryViolationException j' w' d') ∧
    { jointD with CurrentPosition := 1 / 2, HomeDeviation := 50 }.Move ⟨true, []⟩ [] (-1) =
      Outcome.thrown Exception.BoundaryViolationException
        { jointD with CurrentPosition := 1 / 2, HomeDeviation := 50 } ⟨true, []⟩ [] ∧
    { jointD with CurrentPosition := 1 / 2, HomeDeviation := 50 }.Move ⟨true, []⟩ [42] 0 =
      Outcome.returned 0 jointD
        ⟨true, [Event.sendString [68, 63, 10, 13], Event.getChar 42,
          Event.sendString [68, 45, 53, 48], Event.sendString [10, 13]]⟩ [] :=
  ⟨(Move_BoundaryViolation_iff { jointD with CurrentPosition := 1 / 2, HomeDeviation := 50 }
      ⟨true, []⟩ [] 1).1.mpr (by decide!), by decide!, by decide!⟩

/-- C2. When `Move` throws, the exception is `BoundaryViolationException`, the
controller is unchanged, nothing was added to the trace of the link and no device
byte was consumed. -/
theorem Move_BoundaryViolation_no_effect (j : JointMove) (w : World) (device : List Int)
    (a : ℚ) (e : Exception) (j' : JointMove) (w' : World) (d' : List Int)
    (h : j.Move w device a = Outcome.thrown e j' w' d') :
    e = Exception.BoundaryViolationException ∧ j' = j ∧ w' = w ∧ d' = device := by
  by_cases hin : j.LowerBound < a ∧ a < j.UpperBound
  · exact absurd h (Move_not_thrown j w device a hin e j' w' d')
  · rw [Move_of_violation j w device a hin] at h
    cases h
    exact ⟨rfl, rfl, rfl, rfl⟩

theorem Move_BoundaryViolation_no_effect_witness :
    jointD.Move ⟨true, [Event.Sleep 1]⟩ [52, 42] (3 / 2) =
      Outcome.thrown Exception.BoundaryViolationException jointD
        ⟨true, [Event.Sleep 1]⟩ [52, 42] ∧
    Exception.BoundaryViolationException = Exception.BoundaryViolationException ∧
      jointD = jointD ∧ (⟨true, [Event.Sleep 1]⟩ : World) = ⟨true, [Event.Sleep 1]⟩ ∧
      ([52, 42] : List Int) = [52, 42] :=
  ⟨by decide!, Move_BoundaryViolation_no_effect jointD ⟨true, [Event.Sleep 1]⟩ [52, 42] (3 / 2)
    Exception.BoundaryViolationException jointD ⟨true, [Event.Sleep 1]⟩ [52, 42] (by decide!)⟩

theorem cstr_append_nul (xs : List Int) (h : ∀ c ∈ xs, c ≠ 0) (ys : List Int) :
    cstr (xs ++ 0 :: ys) = xs := by
  unfold cstr
  rw [List.takeWhile_append_of_pos (fun c hc => by simpa using h c hc)]
  simp

theorem cstr_ne_zero (s : List Int) : ∀ c ∈ cstr s, c ≠ 0 := by
  intro c hc
  have := List.mem_takeWhile_imp hc
  simpa using this

theorem cstr_strcat_s (J d : Int) (hJ : J ≠ 0) (hd : d ≠ 0) (s : List Int) :
    cstr (strcat_s [J, d, 0] s) = J :: d :: cstr s := by
  have h1 : cstr [J, d, 0] = [J, d] :=
    cstr_append_nul [J, d] (by intro c hc; simp at hc; rcases hc with h | h <;> simp [h, hJ, hd]) []
  unfold strcat_s
  rw [h1]
  have := cstr_append_nul ([J, d] ++ cstr s) (by
    intro c hc
    rcases List.mem_append.mp hc with h | h
    · simp at h; rcases h with h | h <;> simp [h, hJ, hd]
    · exact cstr_ne_zero s c h) []
  simpa using this

theorem decimalValue_itoa : ∀ r : Nat, r < 51 →
    decimalValue (cstr (_itoa_s (Int.ofNat r))) = some r := by
  decide!

theorem moveCommandTicks_command (J d : Int) (hJ : J ≠ 0) (hd : d = 43 ∨ d = 45)
    (r : Nat) (hr : r < 51) :
    moveCommandTicks J (Event.sendString
      (cstr (strcat_s [J, d, 0] (_itoa_s (Int.ofNat r))))) = some r := by
  rw [cstr_strcat_s J d hJ (by rcases hd with h | h <;> simp [h])]
  simp only [moveCommandTicks, true_and, if_pos hd]
  exact decimalValue_itoa r hr

theorem moveCommandTicks_query (J : Int) :
    moveCommandTicks J (Event.sendString (cstr [J, 63, 10, 13, 0])) = none := by
  by_cases hJ : J = 0
  · subst hJ; rfl
  · have : cstr [J, 63, 10, 13, 0] = [J, 63, 10, 13] :=
      cstr_append_nul [J, 63, 10, 13] (by
        intro c hc; simp at hc; rcases hc with h | h | h | h <;> simp [h, hJ]) []
    rw [this]
    simp [moveCommandTicks]

theorem moveCommandTicks_newline (J : Int) :
    moveCommandTicks J (Event.sendString (cstr [10, 13, 0])) = none := by
  have : cstr [10, 13, 0] = [10, 13] := by decide
  rw [this]
  simp [moveCommandTicks]

theorem moveCommandTicks_Sleep (J : Int) (ms : Nat) :
    moveCommandTicks J (Event.Sleep ms) = none := rfl

theorem moveCommandTicks_getChar (J : Int) (c : Int) :
    moveCommandTicks J (Event.getChar c) = none := rfl

theorem replenishLoop_ticks (J : Int) (Q : List Int)
    (hQ : moveCommandTicks J (Event.sendString (cstr Q)) = none) :
    ∀ (device : List Int) (r : Int) (w w' : World) (d' : List Int),
      replenishLoop Q r w device = Step.ok () w' d' →
      ∃ new, w'.trace = w.trace ++ new ∧ transmittedTicks J new = [] := by
  intro device
  induction device with
  | nil =>
    intro r w w' d' h
    unfold replenishLoop at h
    split at h
    · cases h
    · cases h; exact ⟨[], by simp, rfl⟩
  | cons c rest ih =>
    intro r w w' d' h
    unfold replenishLoop at h
    split at h
    · obtain ⟨new, h1, h2⟩ := ih _ _ _ _ h
      refine ⟨[Event.Sleep 10, Event.sendString (cstr Q), Event.getChar (toChar c)] ++ new, ?_, ?_⟩
      · rw [h1]; simp [World.getChar, World.sendString, World.Sleep]
      · unfold transmittedTicks at h2 ⊢
        rw [List.filterMap_append, h2]
        simp [hQ, moveCommandTicks_Sleep, moveCommandTicks_getChar]
    · cases h; exact ⟨[], by simp, rfl⟩

theorem wholeGroupsLoop_ticks (J : Int) (Q E N : List Int) (t : Nat)
    (hQ : moveCommandTicks J (Event.sendString (cstr Q)) = none)
    (hN : moveCommandTicks J (Event.sendString (cstr N)) = none)
    (hE : moveCommandTicks J (Event.sendString (cstr E)) = some t) :
    ∀ (k : Nat) (w : World) (device : List Int) (w' : World) (d' : List Int),
      wholeGroupsLoop Q E N k w device = Step.ok () w' d' →
      ∃ new, w'.trace = w.trace ++ new ∧ transmittedTicks J new = List.replicate k t := by
  intro k
  induction k with
  | zero =>
    intro w device w' d' h
    unfold wholeGroupsLoop at h
    cases h
    exact ⟨[], by simp, rfl⟩
  | succ k ih =>
    intro w device w' d' h
    cases device with
    | nil => unfold wholeGroupsLoop at h; cases h
    | cons c rest =>
      unfold wholeGroupsLoop at h
      simp only at h
      split at h
      · cases h
      · rename_i v w1 d1 hrep
        obtain ⟨n1, h1, h2⟩ := replenishLoop_ticks J Q hQ _ _ _ _ _ hrep
        obtain ⟨n2, h3, h4⟩ := ih _ _ _ _ h
        refine ⟨[Event.sendString (cstr Q), Event.getChar (toChar c)] ++ n1 ++
          [Event.sendString (cstr E), Event.sendString (cstr N)] ++ n2, ?_, ?_⟩
        · rw [h3]
          simp only [World.sendString, h1, World.getChar]
          simp
        · unfold transmittedTicks at h2 h4 ⊢
          simp only [List.filterMap_append, h2, h4]
          simp [hQ, hN, hE, moveCommandTicks_getChar, List.replicate_succ]

theorem replenishLoop_returns (Q : List Int) :
    ∀ (device : List Int) (r : Int) (w : World),
      (toUnsigned r ≤ REPLENISH ∨ 0 < device.countP belowReplenish) →
      ∃ w' d', replenishLoop Q r w device = Step.ok () w' d' ∧
        device.countP belowReplenish ≤
          d'.countP belowReplenish + (if toUnsigned r ≤ REPLENISH then 0 else 1) := by
  intro device
  induction device with
  | nil =>
    intro r w h
    have hr : toUnsigned r ≤ REPLENISH := by
      rcases h with h | h
      · exact h
      · simp at h
    refine ⟨w, [], ?_, by simp⟩
    unfold replenishLoop
    rw [if_neg (not_lt.mpr hr)]
  | cons c rest ih =>
    intro r w h
    by_cases hr : toUnsigned r ≤ REPLENISH
    · refine ⟨w, c :: rest, ?_, by simp⟩
      unfold replenishLoop
      rw [if_neg (not_lt.mpr hr)]
    · have hcount : 0 < (c :: rest).countP belowReplenish := by
        rcases h with h | h
        · exact absurd h hr
        · exact h
      rw [List.countP_cons] at hcount
      by_cases hc : belowReplenish c = true
      · have hc' : toUnsigned (registerValue c) ≤ REPLENISH := by
          simpa [belowReplenish] using hc
        obtain ⟨w', d', h1, h2⟩ := ih (registerValue c)
          (((w.Sleep 10).sendString Q).getChar (toChar c)) (Or.inl hc')
        refine ⟨w', d', ?_, ?_⟩
        · unfold replenishLoop
          rw [if_pos (not_le.mp hr)]
          exact h1
        · rw [List.countP_cons, if_pos hc, if_neg hr]
          rw [if_pos hc'] at h2
          omega
      · have hc' : ¬ toUnsigned (registerValue c) ≤ REPLENISH := by
          simpa [belowReplenish] using hc
        rw [if_neg hc] at hcount
        obtain ⟨w', d', h1, h2⟩ := ih (registerValue c)
          (((w.Sleep 10).sendString Q).getChar (toChar c)) (Or.inr (by omega))
        refine ⟨w', d', ?_, ?_⟩
        · unfold replenishLoop
          rw [if_pos (not_le.mp hr)]
          exact h1
        · rw [List.countP_cons, if_neg hc, if_neg hr]
          rw [if_neg hc'] at h2
          omega

theorem wholeGroupsLoop_returns (Q E N : List Int) :
    ∀ (k : Nat) (w : World) (device : List Int),
      k ≤ device.countP belowReplenish →
      ∃ w' d', wholeGroupsLoop Q E N k w device = Step.ok () w' d' := by
  intro k
  induction k with
  | zero =>
    intro w device _
    exact ⟨w, device, by unfold wholeGroupsLoop; rfl⟩
  | succ k ih =>
    intro w device h
    cases device with
    | nil => simp at h
    | cons c rest =>
      rw [List.countP_cons] at h
      have hrep : toUnsigned (registerValue c) ≤ REPLENISH ∨
          0 < rest.countP belowReplenish := by
        by_cases hc : belowReplenish c = true
        · left; simpa [belowReplenish] using hc
        · right; rw [if_neg hc] at h; omega
      obtain ⟨w1, d1, h1, h2⟩ := replenishLoop_returns Q rest (registerValue c)
        ((w.sendString Q).getChar (toChar c)) hrep
      have hk : k ≤ d1.countP belowReplenish := by
        by_cases hc : belowReplenish c = true
        · have hc' : toUnsigned (registerValue c) ≤ REPLENISH := by
            simpa [belowReplenish] using hc
          rw [if_pos hc] at h
          rw [if_pos hc'] at h2
          omega
        · have hc' : ¬ toUnsigned (registerValue c) ≤ REPLENISH := by
            simpa [belowReplenish] using hc
          rw [if_neg hc] at h
          rw [if_neg hc'] at h2
          omega
      obtain ⟨w', d', h3⟩ := ih ((w1.sendString E).sendString N) d1 hk
      refine ⟨w', d', ?_⟩
      unfold wholeGroupsLoop
      simp only [h1]
      exact h3

theorem toUnsigned_natCast (n : Nat) (h : n ≤ 2147483647) : toUnsigned (n : Int) = n := by
  unfold toUnsigned; omega

theorem DivideTicks_natCast (n : Nat) (h : n ≤ 2147483647) :
    JointMove.DivideTicks (n : Int) =
      if n % 50 ≠ 0 then [((n / 50 : Nat) : Int), ((n % 50 : Nat) : Int)]
      else [((n / 50 : Nat) : Int)] := by
  unfold JointMove.DivideTicks
  simp only [toUnsigned_natCast n h, GROUP_SIZE]
  have h1 : toInt ((n / 50 : Nat) : Int) = ((n / 50 : Nat) : Int) :=
    toInt_eq_self (by omega) (by omega)
  have h2 : toInt (Int.ofNat (n % 50)) = ((n % 50 : Nat) : Int) :=
    toInt_eq_self (by simp; omega) (by simp; omega)
  rw [h1, h2]
  split <;> simp

theorem tickGroups_eq (j : JointMove) (a : ℚ) (hrange : tickMagnitude j a ≤ 2147483647) :
    tickGroups j a =
      if tickMagnitude j a % 50 ≠ 0 then
        [((tickMagnitude j a / 50 : Nat) : Int), ((tickMagnitude j a % 50 : Nat) : Int)]
      else [((tickMagnitude j a / 50 : Nat) : Int)] := by
  have hd : toInt (desiredPosition j a - j.HomeDeviation) =
      desiredPosition j a - j.HomeDeviation := by
    apply toInt_eq_self <;>
    · unfold tickMagnitude at hrange
      unfold desiredPosition JointMove.ConvertToTicks
      omega
  have hn : |desiredPosition j a - j.HomeDeviation| = ((tickMagnitude j a : Nat) : Int) := by
    rw [Int.abs_eq_natAbs]; rfl
  unfold tickGroups
  rw [hd, hn, toInt_eq_self (by omega) (by omega)]
  exact DivideTicks_natCast _ hrange

theorem wholeGroups_eq (j : JointMove) (a : ℚ) (hrange : tickMagnitude j a ≤ 2147483647) :
    wholeGroups j a = tickMagnitude j a / 50 := by
  unfold wholeGroups
  rw [tickGroups_eq j a hrange]
  have hu := toUnsigned_natCast (tickMagnitude j a / 50) (by omega)
  split <;> simpa using hu

theorem afterOddGroup_eq (j : JointMove) (w : World) (a : ℚ)
    (hrange : tickMagnitude j a ≤ 2147483647) :
    afterOddGroup j w a =
      if tickMagnitude j a % 50 ≠ 0 then
        (w.sendString (strcat_s [j.JointToMove, movementDirection j a, 0]
          (_itoa_s (Int.ofNat (tickMagnitude j a % 50))))).sendString [10, 13, 0]
      else w := by
  unfold afterOddGroup
  rw [tickGroups_eq j a hrange]
  split <;> simp

theorem movementDirection_cases (j : JointMove) (a : ℚ) :
    movementDirection j a = 43 ∨ movementDirection j a = 45 := by
  unfold movementDirection
  split <;> simp

/-- C4. An accepted `Move` to a new angle, with `n` the tick magnitude, returns
whenever the device supplies `n / 50` responses that end the flow-control wait,
and when it returns the move commands it transmitted carry, in order, `n % 50`
ticks (only when that is not zero) and then `n / 50` times 50 ticks; for `n = 0`
nothing at all is transmitted. -/
theorem Move_transmits_remainder_then_whole_groups (j : JointMove) (w : World)
    (device : List Int) (a : ℚ) (hJ : j.JointToMove ≠ 0)
    (hin : j.LowerBound < a ∧ a < j.UpperBound) (hne : a ≠ j.CurrentPosition)
    (hrange : tickMagnitude j a ≤ 2147483647) :
    (tickMagnitude j a / 50 ≤ device.countP belowReplenish →
      ∃ j' w' d', j.Move w device a = Outcome.returned 0 j' w' d') ∧
    (∀ r j' w' d', j.Move w device a = Outcome.returned r j' w' d' →
      ∃ new, w'.trace = w.trace ++ new ∧
        transmittedTicks j.JointToMove new =
          (if tickMagnitude j a % 50 ≠ 0 then [tickMagnitude j a % 50] else []) ++
            List.replicate (tickMagnitude j a / 50) 50) ∧
    (tickMagnitude j a = 0 → ∃ j', j.Move w device a = Outcome.returned 0 j' w device) := by
  have hmove := Move_of_accepted j w device a hin (Ne.symm hne)
  rw [wholeGroups_eq j a hrange, afterOddGroup_eq j w a hrange] at hmove
  refine ⟨?_, ?_, ?_⟩
  · intro hcount
    obtain ⟨w', d', h⟩ := wholeGroupsLoop_returns [j.JointToMove, 63, 10, 13, 0]
      (strcat_s [j.JointToMove, movementDirection j a, 0] (_itoa_s (Int.ofNat GROUP_SIZE)))
      [10, 13, 0] (tickMagnitude j a / 50)
      (if tickMagnitude j a % 50 ≠ 0 then
        (w.sendString (strcat_s [j.JointToMove, movementDirection j a, 0]
          (_itoa_s (Int.ofNat (tickMagnitude j a % 50))))).sendString [10, 13, 0]
      else w) device hcount
    rw [h] at hmove
    exact ⟨_, _, _, hmove⟩
  · intro r j' w' d' hret
    rw [hmove] at hret
    split at hret
    · cases hret
    · rename_i v w2 d2 hloop
      cases hret
      obtain ⟨new, h1, h2⟩ := wholeGroupsLoop_ticks j.JointToMove _ _ _ 50
        (moveCommandTicks_query j.JointToMove) (moveCommandTicks_newline j.JointToMove)
        (moveCommandTicks_command j.JointToMove _ hJ (movementDirection_cases j a) 50
          (by norm_num)) _ _ _ _ _ hloop
      by_cases hrem : tickMagnitude j a % 50 ≠ 0
      · rw [if_pos hrem] at h1
        refine ⟨[Event.sendString (cstr (strcat_s [j.JointToMove, movementDirection j a, 0]
          (_itoa_s (Int.ofNat (tickMagnitude j a % 50))))),
          Event.sendString (cstr [10, 13, 0])] ++ new, ?_, ?_⟩
        · rw [h1]; simp [World.sendString]
        · rw [if_pos hrem]
          unfold transmittedTicks at h2 ⊢
          rw [List.filterMap_append, h2]
          have hc := moveCommandTicks_command j.JointToMove _ hJ (movementDirection_cases j a)
            (tickMagnitude j a % 50) (by omega)
          rw [List.filterMap_cons_some hc,
            List.filterMap_cons_none (moveCommandTicks_newline j.JointToMove)]
          rfl
      · rw [if_neg hrem] at h1
        refine ⟨new, h1, ?_⟩
        rw [if_neg hrem, h2]
        simp
  · intro h0
    rw [h0] at hmove
    simp only [Nat.zero_mod, ne_eq, not_true_eq_false, if_false, Nat.zero_div] at hmove
    unfold wholeGroupsLoop at hmove
    exact ⟨_, hmove⟩

theorem Move_transmits_remainder_then_whole_groups_witness :
    tickMagnitude jointD (6 / 5 - 1 / 2) = 70 ∧
    ∃ new, [Event.sendString [68, 43, 50, 48], Event.sendString [10, 13],
        Event.sendString [68, 63, 10, 13], Event.getChar 52, Event.Sleep 10,
        Event.sendString [68, 63, 10, 13], Event.getChar 42,
        Event.sendString [68, 43, 53, 48], Event.sendString [10, 13]] = [] ++ new ∧
      transmittedTicks jointD.JointToMove new =
        (if tickMagnitude jointD (7 / 10) % 50 ≠ 0 then [tickMagnitude jointD (7 / 10) % 50]
          else []) ++ List.replicate (tickMagnitude jointD (7 / 10) / 50) 50 :=
  ⟨by decide!, (Move_transmits_remainder_then_whole_groups jointD ⟨true, []⟩ [52, 42] (7 / 10)
    (by decide) (by decide!) (by decide!) (by decide!)).2.1 0
    { jointD with HomeDeviation := 70, CurrentPosition := 7 / 10 }
    ⟨true, [Event.sendString [68, 43, 50, 48], Event.sendString [10, 13],
        Event.sendString [68, 63, 10, 13], Event.getChar 52, Event.Sleep 10,
        Event.sendString [68, 63, 10, 13], Event.getChar 42,
        Event.sendString [68, 43, 53, 48], Event.sendString [10, 13]]⟩ [] (by decide!)⟩

/-- C5. When `Move` returns for an angle other than `CurrentPosition`, the return
value is 0, `HomeDeviation` is `Round(angle / Resolution)`, `CurrentPosition` is
the angle, and every other member is unchanged. -/
theorem Move_updates_position (j : JointMove) (w : World) (device : List Int) (a : ℚ)
    (r : Int) (j' : JointMove) (w' : World) (d' : List Int)
    (hne : a ≠ j.CurrentPosition)
    (hret : j.Move w device a = Outcome.returned r j' w' d') :
    r = 0 ∧ j'.HomeDeviation = JointMove.Round (a / j.Resolution) ∧ j'.CurrentPosition = a ∧
      j' = { j with HomeDeviation := JointMove.Round (a / j.Resolution),
                    CurrentPosition := a } := by
  have hin : j.LowerBound < a ∧ a < j.UpperBound := by
    by_contra hout
    rw [Move_of_violation j w device a hout] at hret
    cases hret
  rw [Move_of_accepted j w device a hin (Ne.symm hne)] at hret
  split at hret
  · cases hret
  · cases hret
    exact ⟨rfl, rfl, rfl, rfl⟩

theorem Move_updates_position_witness :
    (0 : Int) = 0 ∧
    ({ jointD with HomeDeviation := 20, CurrentPosition := 1 / 5 } : JointMove).HomeDeviation =
      JointMove.Round ((1 / 5) / jointD.Resolution) ∧
    ({ jointD with HomeDeviation := 20, CurrentPosition := 1 / 5 } : JointMove).CurrentPosition =
      1 / 5 ∧
    ({ jointD with HomeDeviation := 20, CurrentPosition := 1 / 5 } : JointMove) =
      { jointD with HomeDeviation := JointMove.Round ((1 / 5) / jointD.Resolution),
                    CurrentPosition := 1 / 5 } :=
  Move_updates_position jointD ⟨true, []⟩ [] (1 / 5) 0
    { jointD with HomeDeviation := 20, CurrentPosition := 1 / 5 }
    ⟨true, [Event.sendString [68, 43, 50, 48], Event.sendString [10, 13]]⟩ []
    (by decide!) (by decide!)

theorem replenishLoop_exact (Q : List Int) :
    ∀ (pre : List Int) (b : Int) (rest : List Int) (r : Int) (w : World),
      ¬ toUnsigned r ≤ REPLENISH → (∀ c ∈ pre, belowReplenish c = false) →
      belowReplenish b = true →
      replenishLoop Q r w (pre ++ b :: rest) =
        Step.ok () ⟨w.PortFree, w.trace ++ (pre ++ [b]).flatMap (requeryEvents Q)⟩ rest := by
  intro pre
  induction pre with
  | nil =>
    intro b rest r w hr _ hb
    have hb' : toUnsigned (registerValue b) ≤ REPLENISH := by simpa [belowReplenish] using hb
    simp only [List.nil_append]
    unfold replenishLoop
    rw [if_pos (not_le.mp hr)]
    cases rest <;>
    · unfold replenishLoop
      rw [if_neg (not_lt.mpr hb')]
      simp [World.getChar, World.sendString, World.Sleep, requeryEvents]
  | cons c pre ih =>
    intro b rest r w hr hpre hb
    have hc : ¬ toUnsigned (registerValue c) ≤ REPLENISH := by
      have := hpre c (List.mem_cons_self c pre)
      simpa [belowReplenish] using this
    simp only [List.cons_append]
    unfold replenishLoop
    rw [if_pos (not_le.mp hr)]
    rw [ih b rest (registerValue c) _ hc (fun x hx => hpre x (List.mem_cons_of_mem c hx)) hb]
    simp [World.getChar, World.sendString, World.Sleep, requeryEvents]

theorem replenishLoop_ready (Q : List Int) (r : Int) (w : World) (device : List Int)
    (hr : toUnsigned r ≤ REPLENISH) : replenishLoop Q r w device = Step.ok () w device := by
  cases device <;>
  · unfold replenishLoop
    rw [if_neg (not_lt.mpr hr)]

theorem wholeGroupsLoop_succ_cons (Q E N : List Int) (k : Nat) (w : World) (c : Int)
    (rest : List Int) :
    wholeGroupsLoop Q E N (k + 1) w (c :: rest) =
      match replenishLoop Q (registerValue c)
          ((w.sendString Q).getChar (toChar c)) rest with
      | Step.blocked w1 => Step.blocked w1
      | Step.ok _ w1 device1 =>
        wholeGroupsLoop Q E N k ((w1.sendString E).sendString N) device1 := rfl

theorem wholeGroupsLoop_step (Q E N : List Int) (k : Nat) (w : World)
    (seg : List Int × Int) (rest : List Int)
    (hpre : ∀ c ∈ seg.1, belowReplenish c = false) (hb : belowReplenish seg.2 = true) :
    wholeGroupsLoop Q E N (k + 1) w (seg.1 ++ seg.2 :: rest) =
      wholeGroupsLoop Q E N k
        ⟨w.PortFree, w.trace ++ wholeGroupEvents Q E N seg⟩ rest := by
  obtain ⟨pre, b⟩ := seg
  simp only at hpre hb ⊢
  cases pre with
  | nil =>
    have hb' : toUnsigned (registerValue b) ≤ REPLENISH := by simpa [belowReplenish] using hb
    simp only [List.nil_append]
    rw [wholeGroupsLoop_succ_cons]
    simp only [replenishLoop_ready Q _ _ _ hb']
    simp [World.getChar, World.sendString, wholeGroupEvents, queryEvents]
  | cons c pre =>
    have hc : ¬ toUnsigned (registerValue c) ≤ REPLENISH := by
      have := hpre c (List.mem_cons_self c pre)
      simpa [belowReplenish] using this
    simp only [List.cons_append]
    rw [wholeGroupsLoop_succ_cons]
    simp only [replenishLoop_exact Q pre b rest _ _ hc
      (fun x hx => hpre x (List.mem_cons_of_mem c hx)) hb]
    simp [World.getChar, World.sendString, wholeGroupEvents, queryEvents]

theorem wholeGroupsLoop_exact (Q E N : List Int) :
    ∀ (segs : List (List Int × Int)) (w : World) (rest : List Int),
      (∀ s ∈ segs, (∀ c ∈ s.1, belowReplenish c = false) ∧ belowReplenish s.2 = true) →
      wholeGroupsLoop Q E N segs.length w (segs.flatMap (fun s => s.1 ++ [s.2]) ++ rest) =
        Step.ok () ⟨w.PortFree, w.trace ++ segs.flatMap (wholeGroupEvents Q E N)⟩ rest := by
  intro segs
  induction segs with
  | nil =>
    intro w rest _
    simp [wholeGroupsLoop]
  | cons s segs ih =>
    intro w rest h
    have hs := h s (List.mem_cons_self s segs)
    have := wholeGroupsLoop_step Q E N segs.length w s
      (segs.flatMap (fun s => s.1 ++ [s.2]) ++ rest) hs.1 hs.2
    simp only [List.length_cons, List.flatMap_cons, List.append_assoc, List.singleton_append,
      List.cons_append, List.nil_append]
    rw [this, ih _ rest (fun x hx => h x (List.mem_cons_of_mem s hx))]
    simp

theorem belowReplenish_iff (c : Int) :
    belowReplenish c = true ↔ 32 ≤ |toChar c| ∧ |toChar c| ≤ 47 := by
  unfold belowReplenish registerValue toUnsigned REPLENISH
  rw [decide_eq_true_iff]
  have h1 : -128 ≤ toChar c ∧ toChar c ≤ 127 := by unfold toChar; omega
  generalize toChar c = x at h1
  rcases abs_cases x with ⟨h, _⟩ | ⟨h, _⟩ <;> rw [h] <;> unfold toChar <;> omega

theorem count_queryEvents (Q : List Int) (cs : List Int) :
    (queryEvents Q cs).count (Event.sendString (cstr Q)) = cs.length := by
  cases cs with
  | nil => rfl
  | cons c cs =>
    unfold queryEvents
    have : ∀ l : List Int,
        (l.flatMap (requeryEvents Q)).count (Event.sendString (cstr Q)) = l.length := by
      intro l
      induction l with
      | nil => rfl
      | cons x l ih =>
        simp only [List.flatMap_cons, List.count_append, ih, requeryEvents]
        simp [List.count_cons]
        omega
    simp only [List.count_append, this]
    simp [List.count_cons]
    omega

theorem registerValue_eq_occupancy (c : Int) : registerValue c = occupancy c := by
  unfold registerValue occupancy
  have h1 : -128 ≤ toChar c ∧ toChar c ≤ 127 := by unfold toChar; omega
  generalize toChar c = x at h1
  rcases abs_cases x with ⟨h, _⟩ | ⟨h, _⟩ <;> rw [h] <;> unfold toChar <;> omega

theorem belowReplenish_iff_occupancy (c : Int) :
    belowReplenish c = true ↔ 0 ≤ occupancy c ∧ occupancy c ≤ 15 := by
  rw [belowReplenish_iff]
  unfold occupancy
  constructor <;> intro h <;> constructor <;> omega

/-- C8 (amended). When the status bytes decode to non-negative occupancies
(`|byte| - 32`), `Move` queries before each whole group until the first response
whose occupancy is at or below 15 and sends the group right after that response;
the number of queries is the position of that response. -/
theorem Move_queries_until_replenished (j : JointMove) (w : World) (a : ℚ)
    (segs : List (List Int × Int)) (rest : List Int)
    (hin : j.LowerBound < a ∧ a < j.UpperBound) (hne : a ≠ j.CurrentPosition)
    (hrange : tickMagnitude j a ≤ 2147483647)
    (hlen : segs.length = tickMagnitude j a / 50)
    (hsegs : ∀ s ∈ segs, (∀ c ∈ s.1, 15 < occupancy c) ∧
      0 ≤ occupancy s.2 ∧ occupancy s.2 ≤ 15) :
    j.Move w (segs.flatMap (fun s => s.1 ++ [s.2]) ++ rest) a =
      Outcome.returned 0
        { j with HomeDeviation := JointMove.Round (a / j.Resolution), CurrentPosition := a }
        ⟨w.PortFree, (afterOddGroup j w a).trace ++
          segs.flatMap (wholeGroupEvents [j.JointToMove, 63, 10, 13, 0]
            (strcat_s [j.JointToMove, movementDirection j a, 0] (_itoa_s 50)) [10, 13, 0])⟩
        rest ∧
    ∀ s ∈ segs, (queryEvents [j.JointToMove, 63, 10, 13, 0] (s.1 ++ [s.2])).count
      (Event.sendString (cstr [j.JointToMove, 63, 10, 13, 0])) = s.1.length + 1 := by
  constructor
  · rw [Move_of_accepted j w _ a hin (Ne.symm hne), wholeGroups_eq j a hrange, ← hlen]
    rw [wholeGroupsLoop_exact _ _ _ segs (afterOddGroup j w a) rest (by
      intro s hs
      refine ⟨fun c hc => ?_, (belowReplenish_iff_occupancy _).mpr (hsegs s hs).2⟩
      have h15 := (hsegs s hs).1 c hc
      have hnot : ¬ belowReplenish c = true := by
        rw [belowReplenish_iff_occupancy]
        omega
      simpa using hnot)]
    have hp : (afterOddGroup j w a).PortFree = w.PortFree := by
      unfold afterOddGroup
      split <;> rfl
    simp only [hp]
    rfl
  · intro s _
    rw [count_queryEvents]
    simp

theorem Move_queries_until_replenished_witness :
    occupancy 52 = 20 ∧ occupancy 42 = 10 ∧
    jointD.Move ⟨true, []⟩ ([([52], 42)].flatMap (fun s => s.1 ++ [s.2]) ++ []) (1 / 2) =
      Outcome.returned 0
        { jointD with HomeDeviation := JointMove.Round ((1 / 2) / jointD.Resolution),
                      CurrentPosition := 1 / 2 }
        ⟨true, (afterOddGroup jointD ⟨true, []⟩ (1 / 2)).trace ++
          [([52], 42)].flatMap (wholeGroupEvents [jointD.JointToMove, 63, 10, 13, 0]
            (strcat_s [jointD.JointToMove, movementDirection jointD (1 / 2), 0] (_itoa_s 50))
            [10, 13, 0])⟩ [] ∧
    (queryEvents [68, 63, 10, 13, 0] [52, 42]).count
      (Event.sendString (cstr [68, 63, 10, 13, 0])) = 2 :=
  ⟨by decide, by decide,
    (Move_queries_until_replenished jointD ⟨true, []⟩ (1 / 2) [([52], 42)] []
      (by decide!) (by decide!) (by decide!) (by decide!) (by
        intro s hs
        simp only [List.mem_singleton] at hs
        subst hs
        refine ⟨fun c hc => ?_, by decide, by decide⟩
        simp only [List.mem_singleton] at hc
        subst hc
        decide)).1, by decide⟩

/-- C8, counterexample. The status byte 31 decodes to the occupancy -1, which
is at or below 15, and still `Move` queries a second time before the group. -/
theorem Move_queries_counterexample :
    (31 : Int) - 32 ≤ 15 ∧
    jointD.Move ⟨true, []⟩ [31, 42] (1 / 2) =
      Outcome.returned 0 { jointD with HomeDeviation := 50, CurrentPosition := 1 / 2 }
        ⟨true, [Event.sendString [68, 63, 10, 13], Event.getChar 31, Event.Sleep 10,
          Event.sendString [68, 63, 10, 13], Event.getChar 42,
          Event.sendString [68, 43, 53, 48], Event.sendString [10, 13]]⟩ [] := by
  decide!

theorem CheckSwitch_cons (j : JointMove) (w : World) (c : Int) (rest : List Int) :
    j.CheckSwitch w (c :: rest) =
      Step.ok (switchStatus j c) ⟨w.PortFree, w.trace ++ pollEvents c⟩ rest := by
  simp [JointMove.CheckSwitch, switchStatus, pollEvents, World.sendChar, World.getChar]

/-- The loop of `Home` calls `CheckSwitch` at the end of its body. -/
theorem jogLoop_eq (j : JointMove) (Move : List Int) (SwitchStatus : Int) (w : World)
    (device : List Int) :
    jogLoop j Move SwitchStatus w device =
      if SwitchStatus ≠ 0 then
        match j.CheckSwitch ((w.sendString Move).Sleep 300) device with
        | Step.blocked w1 => Step.blocked w1
        | Step.ok s w1 device1 => jogLoop j Move s w1 device1
      else Step.ok () w device := by
  cases device with
  | nil =>
    rw [jogLoop]
    split <;> rfl
  | cons c rest =>
    rw [jogLoop]
    split <;> rfl

theorem jogLoop_ok (j : JointMove) (M : List Int) :
    ∀ (device : List Int) (s : Int) (w w' : World) (d' : List Int),
      jogLoop j M s w device = Step.ok () w' d' →
      ∃ bs, device = bs ++ d' ∧ w'.PortFree = w.PortFree ∧
        w'.trace = w.trace ++ bs.flatMap (fun c =>
          [Event.sendString (cstr M), Event.Sleep 300] ++ pollEvents c) ∧
        (∀ i (hi : i < bs.length), switchStatus j (bs.get ⟨i, hi⟩) = 0 ↔ i + 1 = bs.length) ∧
        (bs = [] ↔ s = 0) := by
  intro device
  induction device with
  | nil =>
    intro s w w' d' h
    rw [jogLoop] at h
    split at h
    · cases h
    · rename_i hs
      cases h
      exact ⟨[], rfl, rfl, by simp, fun i hi => absurd hi (by simp),
        by simpa using hs⟩
  | cons c rest ih =>
    intro s w w' d' h
    rw [jogLoop] at h
    split at h
    · rename_i hs
      obtain ⟨bs, h1, h2, h3, h4, h5⟩ := ih _ _ _ _ h
      refine ⟨c :: bs, by rw [h1]; rfl, h2, ?_, ?_, ?_⟩
      · rw [h3]
        simp [World.sendString, World.Sleep, World.sendChar, World.getChar, pollEvents]
      · intro i hi
        cases i with
        | zero =>
          simp only [List.get_eq_getElem, List.getElem_cons_zero, List.length_cons]
          have : switchStatus j c = charAnd (toChar (toChar c - 32)) j.SwitchMask := rfl
          rw [this, ← h5]
          constructor
          · intro h0; simp [h0]
          · intro h0
            have : bs.length = 0 := by omega
            exact List.length_eq_zero.mp this
        | succ i =>
          have hi' : i < bs.length := by simpa using hi
          have := h4 i hi'
          simp only [List.get_eq_getElem, List.getElem_cons_succ, List.length_cons] at this ⊢
          rw [this]
          omega
      · simp [hs]
    · rename_i hs
      cases h
      exact ⟨[], rfl, rfl, by simp, fun i hi => absurd hi (by simp),
        by simpa using hs⟩

theorem jogLoop_exact (j : JointMove) (M : List Int) :
    ∀ (pre : List Int) (b : Int) (rest : List Int) (s : Int) (w : World),
      s ≠ 0 → (∀ c ∈ pre, switchStatus j c ≠ 0) → switchStatus j b = 0 →
      jogLoop j M s w (pre ++ b :: rest) =
        Step.ok () ⟨w.PortFree, w.trace ++ (pre ++ [b]).flatMap (fun c =>
          [Event.sendString (cstr M), Event.Sleep 300] ++ pollEvents c)⟩ rest := by
  intro pre
  induction pre with
  | nil =>
    intro b rest s w hs _ hb
    simp only [List.nil_append]
    rw [jogLoop, if_pos hs]
    have hb' : charAnd (toChar (toChar b - 32)) j.SwitchMask = 0 := hb
    rw [hb']
    cases rest <;>
    · rw [jogLoop]
      simp [World.sendString, World.Sleep, World.sendChar, World.getChar, pollEvents]
  | cons c pre ih =>
    intro b rest s w hs hpre hb
    simp only [List.cons_append]
    rw [jogLoop, if_pos hs]
    have hc : charAnd (toChar (toChar c - 32)) j.SwitchMask ≠ 0 :=
      hpre c (List.mem_cons_self c pre)
    rw [ih b rest _ _ hc (fun x hx => hpre x (List.mem_cons_of_mem c hx)) hb]
    simp [World.sendString, World.Sleep, World.sendChar, World.getChar, pollEvents]

theorem jogCommand_bytes (j : JointMove) (hJ : j.JointToMove ≠ 0) :
    jogCommand j = Event.sendString [j.JointToMove, 43, 50, 48, 10, 13] := by
  unfold jogCommand
  exact congrArg Event.sendString (cstr_append_nul [j.JointToMove, 43, 50, 48, 10, 13] (by
    intro c hc; simp at hc; rcases hc with h | h | h | h | h | h <;> simp [h, hJ]) [])

theorem stopCommand_bytes (j : JointMove) (hJ : j.JointToMove ≠ 0) :
    stopCommand j = Event.sendString [j.JointToMove, 88, 10, 13] := by
  unfold stopCommand
  exact congrArg Event.sendString (cstr_append_nul [j.JointToMove, 88, 10, 13] (by
    intro c hc; simp at hc; rcases hc with h | h | h | h <;> simp [h, hJ]) [])

theorem homeEvents_counts (j : JointMove) (hJ : j.JointToMove ≠ 0) (b0 : Int) (bs : List Int) :
    (homeEvents j b0 bs).count (Event.sendChar 73) = bs.length + 1 ∧
    (homeEvents j b0 bs).count (jogCommand j) = bs.length ∧
    (homeEvents j b0 bs).count (stopCommand j) = 1 ∧
    (homeEvents j b0 bs).getLast? = some (stopCommand j) := by
  have hjs : jogCommand j ≠ stopCommand j := by
    rw [jogCommand_bytes j hJ, stopCommand_bytes j hJ]
    intro h
    simp at h
  have hflat : ∀ l : List Int,
      (l.flatMap (jogEvents j)).count (Event.sendChar 73) = l.length ∧
      (l.flatMap (jogEvents j)).count (jogCommand j) = l.length ∧
      (l.flatMap (jogEvents j)).count (stopCommand j) = 0 := by
    intro l
    induction l with
    | nil => exact ⟨rfl, rfl, rfl⟩
    | cons x l ih =>
      obtain ⟨h1, h2, h3⟩ := ih
      simp only [List.flatMap_cons, List.count_append, h1, h2, h3]
      refine ⟨?_, ?_, ?_⟩
      · simp [jogEvents, pollEvents, jogCommand, List.count_cons]
        omega
      · simp [jogEvents, pollEvents, jogCommand, List.count_cons]
        omega
      · have : (jogEvents j x).count (stopCommand j) = 0 := by
          rw [List.count_eq_zero]
          intro hmem
          simp only [jogEvents, pollEvents, List.cons_append, List.nil_append,
            List.mem_cons, List.mem_singleton, List.not_mem_nil, or_false] at hmem
          rcases hmem with h | h | h | h
          · exact hjs h.symm
          · simp [stopCommand] at h
          · simp [stopCommand] at h
          · simp [stopCommand] at h
        omega
  obtain ⟨h1, h2, h3⟩ := hflat bs
  unfold homeEvents
  simp only [List.count_append, h1, h2, h3]
  refine ⟨?_, ?_, ?_, by simp⟩
  · simp [pollEvents, stopCommand, List.count_cons]
    omega
  · have h4 : [stopCommand j].count (jogCommand j) = 0 := by
      rw [List.count_eq_zero]; simpa using hjs
    have h5 : (pollEvents b0).count (jogCommand j) = 0 := by
      rw [List.count_eq_zero]
      simp [pollEvents, jogCommand]
    rw [h4, h5]
    omega
  · simp [pollEvents, stopCommand, List.count_cons]

theorem Home_returned (j : JointMove) (w : World) (device : List Int) (r : Int)
    (j' : JointMove) (w' : World) (d' : List Int)
    (h : j.Home w device = Outcome.returned r j' w' d') :
    r = 0 ∧ j' = j ∧ w.PortFree = true ∧ w'.PortFree = true ∧
    ∃ b0 bs, device = b0 :: bs ++ d' ∧ w'.trace = w.trace ++ homeEvents j b0 bs ∧
      (∀ i (hi : i < (b0 :: bs).length),
        switchStatus j ((b0 :: bs).get ⟨i, hi⟩) = 0 ↔ i + 1 = (b0 :: bs).length) := by
  cases device with
  | nil =>
    simp [JointMove.Home, JointMove.CheckSwitch] at h
  | cons b0 rest =>
    unfold JointMove.Home at h
    simp only [CheckSwitch_cons] at h
    split at h
    · cases h
    · rename_i hfree
      have hfree' : w.PortFree = true := by simpa using hfree
      split at h
      · cases h
      · rename_i v w3 d3 hloop
        cases h
        obtain ⟨bs, h1, h2, h3, h4, h5⟩ := jogLoop_ok j _ _ _ _ _ _ hloop
        refine ⟨rfl, rfl, hfree', rfl, b0, bs, by rw [h1]; rfl, ?_, ?_⟩
        · simp only [World.sendString, h3, homeEvents]
          have hfun : (fun c => [Event.sendString (cstr [j.JointToMove, 43, 50, 48, 10, 13, 0]),
              Event.Sleep 300] ++ pollEvents c) = jogEvents j := rfl
          rw [hfun]
          simp [stopCommand]
        · intro i hi
          cases i with
          | zero =>
            simp only [List.get_eq_getElem, List.getElem_cons_zero, List.length_cons]
            rw [← h5]
            constructor
            · intro h0; simp [h0]
            · intro h0
              have : bs.length = 0 := by omega
              exact List.length_eq_zero.mp this
          | succ i =>
            have hi' : i < bs.length := by simpa using hi
            have := h4 i hi'
            simp only [List.get_eq_getElem, List.getElem_cons_succ, List.length_cons] at this ⊢
            rw [this]
            omega

theorem Home_exact (j : JointMove) (w : World) (hfree : w.PortFree = true)
    (pre : List Int) (b : Int) (rest : List Int)
    (hpre : ∀ c ∈ pre, switchStatus j c ≠ 0) (hb : switchStatus j b = 0) :
    j.Home w (pre ++ b :: rest) =
      Outcome.returned 0 j ⟨true, w.trace ++ homeEventsOf j (pre ++ [b])⟩ rest := by
  cases pre with
  | nil =>
    simp only [List.nil_append]
    unfold JointMove.Home
    simp only [CheckSwitch_cons, hfree, hb]
    cases rest <;>
    · rw [jogLoop]
      simp [World.sendString, homeEventsOf, homeEvents, stopCommand]
  | cons c pre =>
    have hc : switchStatus j c ≠ 0 := hpre c (List.mem_cons_self c pre)
    simp only [List.cons_append]
    unfold JointMove.Home
    simp only [CheckSwitch_cons, hfree]
    rw [jogLoop_exact j _ pre b rest _ _ hc (fun x hx => hpre x (List.mem_cons_of_mem c hx)) hb]
    have hfun : (fun c => [Event.sendString (cstr [j.JointToMove, 43, 50, 48, 10, 13, 0]),
        Event.Sleep 300] ++ pollEvents c) = jogEvents j := rfl
    rw [hfun]
    simp [World.sendString, homeEventsOf, homeEvents, stopCommand]

/-- C10. When `Home` returns after `p` polls it has sent `p - 1` jog commands,
one after each poll but the last, and then the stop command, once and as its last
transmission; it returns whenever the port is free and some response decodes to
zero. -/
theorem Home_jogs_between_polls_then_stops (j : JointMove) (w : World) (device : List Int)
    (hJ : j.JointToMove ≠ 0) :
    (∀ r j' w' d', j.Home w device = Outcome.returned r j' w' d' →
      ∃ b0 bs, device = b0 :: bs ++ d' ∧ w'.trace = w.trace ++ homeEvents j b0 bs ∧
        (homeEvents j b0 bs).count (Event.sendChar 73) = bs.length + 1 ∧
        (homeEvents j b0 bs).count (jogCommand j) = (bs.length + 1) - 1 ∧
        (homeEvents j b0 bs).count (stopCommand j) = 1 ∧
        (homeEvents j b0 bs).getLast? = some (stopCommand j)) ∧
    (∀ pre b rest, w.PortFree = true → device = pre ++ b :: rest →
      (∀ c ∈ pre, switchStatus j c ≠ 0) → switchStatus j b = 0 →
      j.Home w device =
        Outcome.returned 0 j ⟨true, w.trace ++ homeEventsOf j (pre ++ [b])⟩ rest) ∧
    jogCommand j = Event.sendString [j.JointToMove, 43, 50, 48, 10, 13] ∧
    stopCommand j = Event.sendString [j.JointToMove, 88, 10, 13] := by
  refine ⟨?_, ?_, jogCommand_bytes j hJ, stopCommand_bytes j hJ⟩
  · intro r j' w' d' h
    obtain ⟨_, _, _, _, b0, bs, h1, h2, _⟩ := Home_returned j w device r j' w' d' h
    obtain ⟨c1, c2, c3, c4⟩ := homeEvents_counts j hJ b0 bs
    exact ⟨b0, bs, h1, h2, c1, by simpa using c2, c3, c4⟩
  · intro pre b rest hfree hdev hpre hb
    rw [hdev]
    exact Home_exact j w hfree pre b rest hpre hb

theorem Home_jogs_between_polls_then_stops_witness :
    jointD.JointToMove ≠ 0 ∧
    ∃ b0 bs, [34, 34, 32, 77] = b0 :: bs ++ [77] ∧
      [Event.sendChar 73, Event.getChar 34,
        Event.sendString [68, 43, 50, 48, 10, 13], Event.Sleep 300,
        Event.sendChar 73, Event.getChar 34,
        Event.sendString [68, 43, 50, 48, 10, 13], Event.Sleep 300,
        Event.sendChar 73, Event.getChar 32,
        Event.sendString [68, 88, 10, 13]] = [] ++ homeEvents jointD b0 bs ∧
      (homeEvents jointD b0 bs).count (Event.sendChar 73) = bs.length + 1 ∧
      (homeEvents jointD b0 bs).count (jogCommand jointD) = (bs.length + 1) - 1 ∧
      (homeEvents jointD b0 bs).count (stopCommand jointD) = 1 ∧
      (homeEvents jointD b0 bs).getLast? = some (stopCommand jointD) :=
  ⟨by decide, (Home_jogs_between_polls_then_stops jointD ⟨true, []⟩ [34, 34, 32, 77]
    (by decide)).1 0 jointD
    ⟨true, [Event.sendChar 73, Event.getChar 34,
        Event.sendString [68, 43, 50, 48, 10, 13], Event.Sleep 300,
        Event.sendChar 73, Event.getChar 34,
        Event.sendString [68, 43, 50, 48, 10, 13], Event.Sleep 300,
        Event.sendChar 73, Event.getChar 32,
        Event.sendString [68, 88, 10, 13]]⟩ [77] (by decide!)⟩

/-- C9 (amended). `CheckSwitch` returns `(byte - 32) AND SwitchMask`; with the
port free, `Home` jogs while that value is non-zero and stops at the first zero: a
first response that decodes to zero gives no jog command and one stop command, and
responses that decode to non-zero, non-zero, zero give two jog commands and then
one stop command. -/
theorem Home_jogs_while_switch_status_nonzero (j : JointMove) (w : World)
    (hfree : w.PortFree = true) :
    (∀ c rest, j.CheckSwitch w (c :: rest) =
      Step.ok (charAnd (toChar (toChar c - 32)) j.SwitchMask)
        ⟨w.PortFree, w.trace ++ [Event.sendChar 73, Event.getChar (toChar c)]⟩ rest) ∧
    (∀ b rest, switchStatus j b = 0 →
      j.Home w (b :: rest) =
        Outcome.returned 0 j ⟨true, w.trace ++ (pollEvents b ++ [stopCommand j])⟩ rest) ∧
    (∀ b1 b2 b3 rest, switchStatus j b1 ≠ 0 → switchStatus j b2 ≠ 0 → switchStatus j b3 = 0 →
      j.Home w (b1 :: b2 :: b3 :: rest) =
        Outcome.returned 0 j ⟨true, w.trace ++
          (pollEvents b1 ++ ([jogCommand j, Event.Sleep 300] ++ pollEvents b2) ++
            ([jogCommand j, Event.Sleep 300] ++ pollEvents b3) ++ [stopCommand j])⟩ rest) := by
  refine ⟨fun c rest => CheckSwitch_cons j w c rest, ?_, ?_⟩
  · intro b rest hb
    have := Home_exact j w hfree [] b rest (by simp) hb
    simpa [homeEventsOf, homeEvents] using this
  · intro b1 b2 b3 rest h1 h2 h3
    have := Home_exact j w hfree [b1, b2] b3 rest (by
      intro c hc
      simp only [List.mem_cons, List.mem_singleton, List.not_mem_nil, or_false] at hc
      rcases hc with h | h <;> rw [h] <;> assumption) h3
    simpa [homeEventsOf, homeEvents, jogEvents] using this

theorem Home_jogs_while_switch_status_nonzero_witness :
    jointD.Home ⟨true, []⟩ [34, 34, 32] =
      Outcome.returned 0 jointD ⟨true, [] ++
        (pollEvents 34 ++ ([jogCommand jointD, Event.Sleep 300] ++ pollEvents 34) ++
          ([jogCommand jointD, Event.Sleep 300] ++ pollEvents 32) ++ [stopCommand jointD])⟩ [] :=
  (Home_jogs_while_switch_status_nonzero jointD ⟨true, []⟩ rfl).2.2 34 34 32 []
    (by decide) (by decide) (by decide)

/-- C9, counterexample. A first response that decodes to a non-zero value is
followed by a jog command, and a first response that decodes to zero is followed by
the stop command at once, whatever the later responses are. -/
theorem Home_switch_polarity_counterexample :
    switchStatus jointD 34 ≠ 0 ∧ switchStatus jointD 32 = 0 ∧
    jointD.Home ⟨true, []⟩ [34, 32] =
      Outcome.returned 0 jointD
        ⟨true, [Event.sendChar 73, Event.getChar 34,
          Event.sendString [68, 43, 50, 48, 10, 13], Event.Sleep 300,
          Event.sendChar 73, Event.getChar 32,
          Event.sendString [68, 88, 10, 13]]⟩ [] ∧
    jointD.Home ⟨true, []⟩ [32, 32, 34] =
      Outcome.returned 0 jointD
        ⟨true, [Event.sendChar 73, Event.getChar 32,
          Event.sendString [68, 88, 10, 13]]⟩ [32, 34] := by
  decide!

/-- C6 (amended). When `CurrentPosition` lies strictly between the bounds,
`Move(CurrentPosition)` returns 0 with the controller, the trace and the device
bytes untouched; otherwise it throws `BoundaryViolationException`, again with the
controller, the trace and the device bytes untouched. -/
theorem Move_to_CurrentPosition_is_noop (j : JointMove) (w : World) (device : List Int) :
    ((j.LowerBound < j.CurrentPosition ∧ j.CurrentPosition < j.UpperBound) →
      j.Move w device j.CurrentPosition = Outcome.returned 0 j w device) ∧
    (¬ (j.LowerBound < j.CurrentPosition ∧ j.CurrentPosition < j.UpperBound) →
      j.Move w device j.CurrentPosition =
        Outcome.thrown Exception.BoundaryViolationException j w device) :=
  ⟨Move_of_same j w device, Move_of_violation j w device j.CurrentPosition⟩

theorem Move_to_CurrentPosition_is_noop_witness :
    (jointD.LowerBound < jointD.CurrentPosition ∧ jointD.CurrentPosition < jointD.UpperBound) ∧
    jointD.Move ⟨true, []⟩ [52] jointD.CurrentPosition =
      Outcome.returned 0 jointD ⟨true, []⟩ [52] :=
  ⟨by decide!, (Move_to_CurrentPosition_is_noop jointD ⟨true, []⟩ [52]).1 (by decide!)⟩

/-- C6, counterexample. A controller constructed with bounds (0, 1) and the
default home position 0 throws on `Move(CurrentPosition)`. -/
theorem Move_to_CurrentPosition_counterexample :
    JointMove.JointMove 68 1 0 (1 / 100) ⟨true, []⟩ [] false 0 =
      Outcome.returned 0 jointAtBound ⟨true, []⟩ [] ∧
    jointAtBound.Move ⟨true, []⟩ [] jointAtBound.CurrentPosition =
      Outcome.thrown Exception.BoundaryViolationException jointAtBound ⟨true, []⟩ [] := by
  decide!

/-- C7. A controller constructed with home position 1/10 and then moved to 3/10
has `HomeDeviation = 30`, while the tick-rounded distance of `CurrentPosition`
from `HomePosition` is 20. -/
theorem HomeDeviation_ignores_HomePosition :
    JointMove.JointMove 68 1 (-1) (1 / 100) ⟨true, []⟩ [] false (1 / 10) =
      Outcome.returned 0 jointOffHome ⟨true, []⟩ [] ∧
    jointOffHome.Move ⟨true, []⟩ [] (3 / 10) =
      Outcome.returned 0 { jointOffHome with HomeDeviation := 30, CurrentPosition := 3 / 10 }
        ⟨true, [Event.sendString [68, 43, 51, 48], Event.sendString [10, 13]]⟩ [] ∧
    JointMove.Round ((3 / 10 - jointOffHome.HomePosition) / jointOffHome.Resolution) = 20 := by
  decide!

theorem Round_intCast (k : Int) (h1 : -2147483648 ≤ k) (h2 : k ≤ 2147483647) :
    JointMove.Round (k : ℚ) = k := by
  have h1q : (-2147483648 : ℚ) ≤ (k : ℚ) := by exact_mod_cast h1
  have h2q : (k : ℚ) ≤ 2147483647 := by exact_mod_cast h2
  by_cases h0 : (0 : ℚ) ≤ (k : ℚ)
  · rw [Round_nonneg h0 h2q, Int.floor_eq_iff]
    constructor <;> linarith
  · rw [Round_neg (not_le.mp h0) h1q, Int.ceil_eq_iff]
    constructor <;> linarith

/-- C14. For a positive resolution `r` and an integer `k` in the `int` range,
converting the angle `k * r` to ticks and rounding gives `k`. -/
theorem Round_ConvertToTicks_roundtrip (j : JointMove) (k : Int)
    (hr : 0 < j.Resolution) (h1 : -2147483648 ≤ k) (h2 : k ≤ 2147483647) :
    JointMove.Round (j.ConvertToTicks ((k : ℚ) * j.Resolution)) = k := by
  unfold JointMove.ConvertToTicks
  rw [mul_div_cancel_right₀ _ (ne_of_gt hr)]
  exact Round_intCast k h1 h2

theorem Round_ConvertToTicks_roundtrip_witness :
    JointMove.Round (jointD.ConvertToTicks (((-37 : Int) : ℚ) * jointD.Resolution)) = -37 :=
  Round_ConvertToTicks_roundtrip jointD (-37) (by decide!) (by decide) (by decide)

/-- C15 (amended). For a tick magnitude `n` in the `int` range, `DivideTicks`
returns the number of whole groups `n / 50`, followed by the odd group `n % 50`
when that is not zero. -/
theorem DivideTicks_whole_groups_then_odd_group (n : Nat) (h : n ≤ 2147483647) :
    JointMove.DivideTicks (n : Int) =
      [((n / 50 : Nat) : Int)] ++ (if n % 50 ≠ 0 then [((n % 50 : Nat) : Int)] else []) := by
  rw [DivideTicks_natCast n h]
  split <;> rfl

theorem DivideTicks_whole_groups_then_odd_group_witness :
    JointMove.DivideTicks ((120 : Nat) : Int) =
      [((120 / 50 : Nat) : Int)] ++
        (if 120 % 50 ≠ 0 then [((120 % 50 : Nat) : Int)] else []) :=
  DivideTicks_whole_groups_then_odd_group 120 (by decide)

/-- C15, counterexample. `DivideTicks` gives the group count and the odd group,
not the list of batch sizes. -/
theorem DivideTicks_counterexample :
    JointMove.DivideTicks 120 = [2, 20] ∧ JointMove.DivideTicks 120 ≠ [20, 50, 50] ∧
    JointMove.DivideTicks 100 = [2] ∧ JointMove.DivideTicks 100 ≠ [50, 50] ∧
    JointMove.DivideTicks 0 = [0] ∧ JointMove.DivideTicks 0 ≠ [] := by
  decide

/-- C20. When `Home` returns, the controller is the one it was called on, so
`CurrentPosition` and `HomeDeviation` keep their values, and `PortFree` is set. -/
theorem Home_keeps_position (j : JointMove) (w : World) (device : List Int) (r : Int)
    (j' : JointMove) (w' : World) (d' : List Int)
    (h : j.Home w device = Outcome.returned r j' w' d') :
    j'.CurrentPosition = j.CurrentPosition ∧ j'.HomeDeviation = j.HomeDeviation ∧
      j' = j ∧ w'.PortFree = true := by
  obtain ⟨_, hj, _, hp, _⟩ := Home_returned j w device r j' w' d' h
  subst hj
  exact ⟨rfl, rfl, rfl, hp⟩

theorem Home_keeps_position_witness :
    ({ jointD with CurrentPosition := 1 / 2, HomeDeviation := 50 } : JointMove).CurrentPosition =
      1 / 2 ∧
    ({ jointD with CurrentPosition := 1 / 2, HomeDeviation := 50 } : JointMove).HomeDeviation =
      50 ∧
    (({ jointD with CurrentPosition := 1 / 2, HomeDeviation := 50 } : JointMove).CurrentPosition =
        ({ jointD with CurrentPosition := 1 / 2, HomeDeviation := 50 } : JointMove).CurrentPosition ∧
      ({ jointD with CurrentPosition := 1 / 2, HomeDeviation := 50 } : JointMove).HomeDeviation =
        ({ jointD with CurrentPosition := 1 / 2, HomeDeviation := 50 } : JointMove).HomeDeviation ∧
      ({ jointD with CurrentPosition := 1 / 2, HomeDeviation := 50 } : JointMove) =
        { jointD with CurrentPosition := 1 / 2, HomeDeviation := 50 } ∧
      (⟨true, [Event.sendChar 73, Event.getChar 34,
        Event.sendString [68, 43, 50, 48, 10, 13], Event.Sleep 300,
        Event.sendChar 73, Event.getChar 32,
        Event.sendString [68, 88, 10, 13]]⟩ : World).PortFree = true) :=
  ⟨rfl, rfl, Home_keeps_position { jointD with CurrentPosition := 1 / 2, HomeDeviation := 50 }
    ⟨true, []⟩ [34, 32] 0 { jointD with CurrentPosition := 1 / 2, HomeDeviation := 50 }
    ⟨true, [Event.sendChar 73, Event.getChar 34,
        Event.sendString [68, 43, 50, 48, 10, 13], Event.Sleep 300,
        Event.sendChar 73, Event.getChar 32,
        Event.sendString [68, 88, 10, 13]]⟩ [] (by decide!)⟩

theorem Home_controller (j : JointMove) (w : World) (device : List Int) :
    (j.Home w device).controller = j := by
  unfold JointMove.Home
  simp only
  split
  · rfl
  · split
    · rfl
    · split <;> rfl

theorem constructor_SwitchMask (Joint : Int) (U L R : ℚ) (w : World) (device : List Int)
    (ls : Bool) (H : ℚ) :
    (JointMove.JointMove Joint U L R w device ls H).controller.SwitchMask =
      static_cast_char ((2 : ℚ) ^ (toupper Joint - 67)) := by
  unfold JointMove.JointMove
  simp only
  split
  · rw [Home_controller]
  · rfl

theorem static_cast_char_pow (t : Int) (h1 : 67 ≤ t) (h2 : t ≤ 72) :
    static_cast_char ((2 : ℚ) ^ (t - 67)) = 2 ^ (t - 67).toNat := by
  interval_cases t <;> decide!

/-- C16 (amended). For the identifiers C through H, in either letter case, the
constructor computes the mask `2 ^ (letter - 'C')`, which has exactly one bit set,
and two of these identifiers that differ after upper-casing get different masks;
for A and B the mask is 0. -/
theorem SwitchMask_single_bit_from_C (Joint Joint2 : Int) (U L R : ℚ) (w : World)
    (device : List Int) (ls : Bool) (H : ℚ) :
    ((67 ≤ toupper Joint ∧ toupper Joint ≤ 72) →
      (JointMove.JointMove Joint U L R w device ls H).controller.SwitchMask =
        2 ^ (toupper Joint - 67).toNat ∧
      singleBit (JointMove.JointMove Joint U L R w device ls H).controller.SwitchMask) ∧
    ((67 ≤ toupper Joint ∧ toupper Joint ≤ 72) → (67 ≤ toupper Joint2 ∧ toupper Joint2 ≤ 72) →
      toupper Joint ≠ toupper Joint2 →
      (JointMove.JointMove Joint U L R w device ls H).controller.SwitchMask ≠
        (JointMove.JointMove Joint2 U L R w device ls H).controller.SwitchMask) ∧
    ((toupper Joint = 65 ∨ toupper Joint = 66) →
      (JointMove.JointMove Joint U L R w device ls H).controller.SwitchMask = 0) := by
  refine ⟨?_, ?_, ?_⟩
  · intro h
    rw [constructor_SwitchMask, static_cast_char_pow _ h.1 h.2]
    exact ⟨rfl, _, rfl⟩
  · intro h1 h2 hne
    rw [constructor_SwitchMask, constructor_SwitchMask, static_cast_char_pow _ h1.1 h1.2,
      static_cast_char_pow _ h2.1 h2.2]
    obtain ⟨a1, a2⟩ := h1
    obtain ⟨b1, b2⟩ := h2
    generalize toupper Joint = s at *
    generalize toupper Joint2 = t at *
    interval_cases s <;> interval_cases t <;> first | exact absurd rfl hne | decide
  · intro h
    rw [constructor_SwitchMask]
    rcases h with h | h <;> rw [h] <;> decide!

theorem SwitchMask_single_bit_from_C_witness :
    (JointMove.JointMove 100 1 (-1) (1 / 100) ⟨true, []⟩ [] false 0).controller.SwitchMask =
        2 ^ (toupper 100 - 67).toNat ∧
      singleBit (JointMove.JointMove 100 1 (-1) (1 / 100) ⟨true, []⟩ [] false 0).controller.SwitchMask :=
  (SwitchMask_single_bit_from_C 100 100 1 (-1) (1 / 100) ⟨true, []⟩ [] false 0).1
    (by decide)

/-- C16, counterexample. The masks computed for A and for B are both 0, which has
no bit set. -/
theorem SwitchMask_counterexample :
    (JointMove.JointMove 65 1 (-1) (1 / 100) ⟨true, []⟩ [] false 0).controller.SwitchMask = 0 ∧
    (JointMove.JointMove 66 1 (-1) (1 / 100) ⟨true, []⟩ [] false 0).controller.SwitchMask = 0 ∧
    ¬ singleBit 0 := by
  refine ⟨by decide!, by decide!, ?_⟩
  rintro ⟨k, hk⟩
  have : (2 : Int) ^ k ≠ 0 := pow_ne_zero k (by norm_num)
  exact this hk.symm

theorem scanFile_skip (J : Int) :
    ∀ (pre rest : List Int), (∀ c ∈ pre, toChar c ≠ J) →
      scanFile J (pre ++ rest) = scanFile J rest := by
  intro pre
  induction pre with
  | nil => intro rest _; rfl
  | cons c pre ih =>
    intro rest h
    simp only [List.cons_append]
    rw [scanFile, if_pos (h c (List.mem_cons_self c pre))]
    exact ih rest (fun x hx => h x (List.mem_cons_of_mem c hx))

theorem scanFile_found (J c : Int) (rest : List Int) (hc : toChar c = J) :
    scanFile J (c :: rest) = Except.ok (rest.takeWhile (fun x => x ≠ 10)) := by
  rw [scanFile, if_neg (not_not.mpr hc)]

theorem takeWhile_line (sep : Int) (num rest : List Int) (hsep : sep ≠ 10)
    (hnum : ∀ c ∈ num, c ≠ 10) :
    (sep :: num ++ [10] ++ rest).takeWhile (fun x => x ≠ 10) = sep :: num := by
  have h : ∀ c ∈ sep :: num, (fun x => decide (x ≠ 10)) c = true := by
    intro c hc
    rcases List.mem_cons.mp hc with h | h
    · simpa [h] using hsep
    · simpa using hnum c h
  have := @List.takeWhile_append_of_pos Int _ (sep :: num) (10 :: rest) h
  simpa using this

theorem scanFile_line_skip (J : Int) (hJ : 65 ≤ J ∧ J ≤ 90) (l : Int × Int × List Int)
    (rest : List Int) (hletter : 65 ≤ l.1 ∧ l.1 ≤ 90) (hsep : l.2.1 = 9 ∨ l.2.1 = 32)
    (hl : l.1 ≠ J) (hnum : ∀ c ∈ l.2.2, toChar c ≠ J) :
    scanFile J (l.1 :: (l.2.1 :: l.2.2 ++ [10] ++ rest)) = scanFile J rest := by
  have htc : toChar l.1 = l.1 := by unfold toChar; omega
  have := scanFile_skip J (l.1 :: (l.2.1 :: l.2.2 ++ [10])) rest (by
    intro c hc
    simp only [List.cons_append, List.mem_cons, List.mem_append, List.mem_singleton,
      List.not_mem_nil, or_false] at hc
    rcases hc with h | h | h | h
    · rw [h, htc]; exact hl
    · rcases hsep with h2 | h2 <;> rw [h, h2] <;> unfold toChar <;> omega
    · exact hnum c h
    · rw [h]; unfold toChar; omega)
  simpa using this

theorem calibrationFile_cons (l : Int × Int × List Int) (lines : List (Int × Int × List Int)) :
    calibrationFile (l :: lines) =
      l.1 :: (l.2.1 :: l.2.2 ++ [10] ++ calibrationFile lines) := by
  simp [calibrationFile]

theorem ReadFile_no_line (J : Int) (hJ : 65 ≤ J ∧ J ≤ 90) :
    ∀ (lines : List (Int × Int × List Int)), documentedForm lines →
      (∀ l ∈ lines, l.1 ≠ J ∧ ∀ c ∈ l.2.2, toChar c ≠ J) →
      JointMove.ReadFile J (some (calibrationFile lines)) =
        Except.error Exception.ValueNotFoundException := by
  intro lines
  induction lines with
  | nil =>
    intro _ _
    have : toChar (-1) ≠ J := by unfold toChar; omega
    simp [JointMove.ReadFile, calibrationFile, scanFile, this]
  | cons l lines ih =>
    intro hform hno
    obtain ⟨hl1, hl2, _⟩ := hform l (List.mem_cons_self l lines)
    obtain ⟨hl, hnum⟩ := hno l (List.mem_cons_self l lines)
    have ih' := ih (fun x hx => hform x (List.mem_cons_of_mem l hx))
      (fun x hx => hno x (List.mem_cons_of_mem l hx))
    unfold JointMove.ReadFile at ih' ⊢
    simp only at ih' ⊢
    rw [calibrationFile_cons, scanFile_line_skip J hJ l _ hl1 hl2 hl hnum]
    exact ih'

/-- The lookup on a file of the documented form returns the rest of the first
line for the joint's letter, the separator and the number text, when no number
text of an earlier line holds that letter. -/
theorem ReadFile_first_line (J : Int) (hJ : 65 ≤ J ∧ J ≤ 90) :
    ∀ (pre : List (Int × Int × List Int)) (l : Int × Int × List Int)
      (post : List (Int × Int × List Int)), documentedForm (pre ++ l :: post) →
      (∀ p ∈ pre, p.1 ≠ J ∧ ∀ c ∈ p.2.2, toChar c ≠ J) → l.1 = J →
      JointMove.ReadFile J (some (calibrationFile (pre ++ l :: post))) =
        Except.ok (l.2.1 :: l.2.2) := by
  intro pre
  induction pre with
  | nil =>
    intro l post hform _ hl
    obtain ⟨hl1, hl2, hl3⟩ := hform l (List.mem_cons_self l post)
    have htc : toChar l.1 = l.1 := by unfold toChar; omega
    unfold JointMove.ReadFile
    simp only [List.nil_append]
    rw [calibrationFile_cons, scanFile_found J l.1 _ (by rw [htc, hl])]
    rw [takeWhile_line l.2.1 l.2.2 _ (by rcases hl2 with h | h <;> rw [h] <;> decide) hl3]
  | cons p pre ih =>
    intro l post hform hno hl
    obtain ⟨hp1, hp2, _⟩ := hform p (List.mem_cons_self p _)
    obtain ⟨hp, hnum⟩ := hno p (List.mem_cons_self p pre)
    have ih' := ih l post (fun x hx => hform x (List.mem_cons_of_mem p hx))
      (fun x hx => hno x (List.mem_cons_of_mem p hx)) hl
    unfold JointMove.ReadFile at ih' ⊢
    simp only [List.cons_append] at ih' ⊢
    rw [calibrationFile_cons, scanFile_line_skip J hJ p _ hp1 hp2 hp hnum]
    exact ih'

/-- C18. The file with the lines `D 1E-3` and `E 2` has the documented form and
a line for E, yet the lookup for E returns `-3`, the text after the exponent letter
in the line for D, not the number text of the line for E; and on the file with the
only line `D 1E-3`, which has no line for E, the lookup returns `-3` too instead of
failing with `ValueNotFoundException`.  With the exponent on the line for E itself
(`D 0.5` and `E 1E-3`) the lookup returns that line's text. -/
theorem ReadFile_stops_at_exponent_letter :
    documentedForm [(68, 32, [49, 69, 45, 51]), (69, 32, [50])] ∧
    lineOf 69 [(68, 32, [49, 69, 45, 51]), (69, 32, [50])] = some (69, 32, [50]) ∧
    JointMove.ReadFile 69 (some (calibrationFile
      [(68, 32, [49, 69, 45, 51]), (69, 32, [50])])) = Except.ok [45, 51] ∧
    lineOf 69 [(68, 32, [49, 69, 45, 51])] = none ∧
    JointMove.ReadFile 69 (some (calibrationFile [(68, 32, [49, 69, 45, 51])])) =
      Except.ok [45, 51] ∧
    JointMove.ReadFile 69 (some (calibrationFile
      [(68, 32, [48, 46, 53]), (69, 32, [49, 69, 45, 51])])) =
      Except.ok [32, 49, 69, 45, 51] ∧
    JointMove.ReadFile 69 none = Except.error Exception.FileNotFoundException := by
  refine ⟨?_, by decide, rfl, by decide, rfl, rfl, rfl⟩
  intro l hl
  simp only [List.mem_cons, List.mem_singleton, List.not_mem_nil, or_false] at hl
  rcases hl with h | h <;> rw [h] <;> decide

/-- C12 (amended). Every switch-status poll of `Home` is a call of `CheckSwitch`,
which transmits the single character `I` and then reads exactly one response byte;
this is not the query string of `Move`. -/
theorem Home_polls_with_I_command (j : JointMove) (w : World) (device : List Int) :
    (∀ c rest, j.CheckSwitch w (c :: rest) =
      Step.ok (switchStatus j c)
        ⟨w.PortFree, w.trace ++ [Event.sendChar 73, Event.getChar (toChar c)]⟩ rest) ∧
    j.CheckSwitch w [] = Step.blocked ⟨w.PortFree, w.trace ++ [Event.sendChar 73]⟩ ∧
    (∀ r j' w' d', j.Home w device = Outcome.returned r j' w' d' →
      ∃ b0 bs, device = b0 :: bs ++ d' ∧
        w'.trace = w.trace ++
          ([Event.sendChar 73, Event.getChar (toChar b0)] ++
            bs.flatMap (fun c => [jogCommand j, Event.Sleep 300,
              Event.sendChar 73, Event.getChar (toChar c)]) ++ [stopCommand j])) ∧
    (∀ Q : List Int, Event.sendChar 73 ≠ Event.sendString Q) := by
  refine ⟨fun c rest => CheckSwitch_cons j w c rest, rfl, ?_, fun Q h => by cases h⟩
  intro r j' w' d' h
  obtain ⟨_, _, _, _, b0, bs, h1, h2, _⟩ := Home_returned j w device r j' w' d' h
  exact ⟨b0, bs, h1, h2⟩

theorem Home_polls_with_I_command_witness :
    jointD.CheckSwitch ⟨true, []⟩ (34 :: [32]) =
      Step.ok (switchStatus jointD 34)
        ⟨true, [] ++ [Event.sendChar 73, Event.getChar (toChar 34)]⟩ [32] :=
  (Home_polls_with_I_command jointD ⟨true, []⟩ [34, 32]).1 34 [32]

/-- C12, counterexample. The poll of joint D transmits the character `I`, not the
query string `D?` with its line feed and carriage return. -/
theorem Home_poll_counterexample :
    jointD.CheckSwitch ⟨true, []⟩ [32] =
      Step.ok 0 ⟨true, [Event.sendChar 73, Event.getChar 32]⟩ [] ∧
    jointD.Home ⟨true, []⟩ [32] =
      Outcome.returned 0 jointD
        ⟨true, [Event.sendChar 73, Event.getChar 32, Event.sendString [68, 88, 10, 13]]⟩ [] ∧
    Event.sendChar 73 ≠ Event.sendString [68, 63, 10, 13] := by
  decide!

/-- C19. Called while the port is taken, `Home` still sends its first poll and
reads the answer, and only then waits, without ever having claimed the port; and
called with the port free, it makes that first poll before it claims the port. -/
theorem Home_polls_before_claiming_port :
    jointD.Home ⟨false, []⟩ [32] =
      Outcome.blocked jointD ⟨false, [Event.sendChar 73, Event.getChar 32]⟩ ∧
    (∀ (j : JointMove) (w : World) (c : Int) (rest : List Int), w.PortFree = false →
      j.Home w (c :: rest) =
        Outcome.blocked j ⟨false, w.trace ++ [Event.sendChar 73, Event.getChar (toChar c)]⟩) ∧
    (∀ (j : JointMove) (w : World) (device : List Int),
      j.Home w device =
        match j.CheckSwitch w device with
        | Step.blocked w1 => Outcome.blocked j w1
        | Step.ok SwitchStatus w1 device1 =>
          if ¬ w1.PortFree then Outcome.blocked j w1
          else
            match jogLoop j [j.JointToMove, 43, 50, 48, 10, 13, 0] SwitchStatus
                { w1 with PortFree := false } device1 with
            | Step.blocked w3 => Outcome.blocked j w3
            | Step.ok _ w3 device3 =>
              Outcome.returned 0 j
                { (w3.sendString [j.JointToMove, 88, 10, 13, 0]) with PortFree := true }
                device3) := by
  refine ⟨by decide!, ?_, fun j w device => rfl⟩
  intro j w c rest hfree
  unfold JointMove.Home
  simp [CheckSwitch_cons, hfree, pollEvents]

/-- C17. While controller D is inside `Home`, holding the port and waiting for
the answer to its second poll, a call of `Home` on controller E sends its poll and
reads a byte: the poll of E is on the link after the jog command of D and before
any stop command of D. -/
theorem Home_of_second_controller_polls_during_hold :
    jointD.Home ⟨true, []⟩ [34] =
      Outcome.blocked jointD
        ⟨false, [Event.sendChar 73, Event.getChar 34,
          Event.sendString [68, 43, 50, 48, 10, 13], Event.Sleep 300, Event.sendChar 73]⟩ ∧
    jointE.Home
        ⟨false, [Event.sendChar 73, Event.getChar 34,
          Event.sendString [68, 43, 50, 48, 10, 13], Event.Sleep 300, Event.sendChar 73]⟩
        [32] =
      Outcome.blocked jointE
        ⟨false, [Event.sendChar 73, Event.getChar 34,
          Event.sendString [68, 43, 50, 48, 10, 13], Event.Sleep 300, Event.sendChar 73,
          Event.sendChar 73, Event.getChar 32]⟩ ∧
    stopCommand jointD ∉
      [Event.sendChar 73, Event.getChar 34,
        Event.sendString [68, 43, 50, 48, 10, 13], Event.Sleep 300, Event.sendChar 73,
        Event.sendChar 73, Event.getChar 32] := by
  decide!

theorem replenishLoop_ok_shape (Q : List Int) :
    ∀ (device : List Int) (r : Int) (w w' : World) (d' : List Int),
      replenishLoop Q r w device = Step.ok () w' d' →
      ∃ cs, device = cs ++ d' ∧
        w' = ⟨w.PortFree, w.trace ++ cs.flatMap (requeryEvents Q)⟩ := by
  intro device
  induction device with
  | nil =>
    intro r w w' d' h
    rw [replenishLoop] at h
    split at h
    · cases h
    · cases h
      exact ⟨[], rfl, by simp⟩
  | cons c rest ih =>
    intro r w w' d' h
    rw [replenishLoop] at h
    split at h
    · obtain ⟨cs, h1, h2⟩ := ih _ _ _ _ h
      refine ⟨c :: cs, by rw [h1]; rfl, ?_⟩
      rw [h2]
      simp [World.getChar, World.sendString, World.Sleep, requeryEvents]
    · cases h
      exact ⟨[], rfl, by simp⟩

theorem wholeGroupsLoop_ok_shape (Q E N : List Int) :
    ∀ (k : Nat) (w : World) (device : List Int) (w' : World) (d' : List Int),
      wholeGroupsLoop Q E N k w device = Step.ok () w' d' →
      ∃ segs : List (List Int × Int), segs.length = k ∧
        device = segs.flatMap (fun s => s.1 ++ [s.2]) ++ d' ∧
        w' = ⟨w.PortFree, w.trace ++ segs.flatMap (wholeGroupEvents Q E N)⟩ := by
  intro k
  induction k with
  | zero =>
    intro w device w' d' h
    rw [wholeGroupsLoop] at h
    cases h
    exact ⟨[], rfl, rfl, by simp⟩
  | succ k ih =>
    intro w device w' d' h
    cases device with
    | nil => rw [wholeGroupsLoop] at h; cases h
    | cons c rest =>
      rw [wholeGroupsLoop_succ_cons] at h
      split at h
      · cases h
      · rename_i v w1 d1 hrep
        obtain ⟨cs, h1, h2⟩ := replenishLoop_ok_shape Q _ _ _ _ _ hrep
        obtain ⟨segs, h3, h4, h5⟩ := ih _ _ _ _ h
        have hne : c :: cs ≠ [] := List.cons_ne_nil c cs
        have hsplit : (c :: cs).dropLast ++ [(c :: cs).getLast hne] = c :: cs :=
          List.dropLast_append_getLast hne
        refine ⟨((c :: cs).dropLast, (c :: cs).getLast hne) :: segs, by simp [h3], ?_, ?_⟩
        · simp only [List.flatMap_cons, hsplit]
          rw [h1, h4]
          simp
        · rw [h5, h2]
          simp only [List.flatMap_cons, wholeGroupEvents, hsplit, queryEvents]
          simp [World.getChar, World.sendString]

theorem afterOddGroup_trace (j : JointMove) (w : World) (a : ℚ)
    (hrange : tickMagnitude j a ≤ 2147483647) :
    afterOddGroup j w a =
      ⟨w.PortFree, w.trace ++
        (if tickMagnitude j a % 50 ≠ 0 then moveCommandEvents j a (tickMagnitude j a % 50)
          else [])⟩ := by
  rw [afterOddGroup_eq j w a hrange]
  split
  · simp [World.sendString, moveCommandEvents]
  · simp

theorem Move_returned_shape (j : JointMove) (w : World) (device : List Int) (a : ℚ)
    (r : Int) (j' : JointMove) (w' : World) (d' : List Int)
    (hin : j.LowerBound < a ∧ a < j.UpperBound) (hne : a ≠ j.CurrentPosition)
    (hrange : tickMagnitude j a ≤ 2147483647)
    (hret : j.Move w device a = Outcome.returned r j' w' d') :
    ∃ segs : List (List Int × Int), segs.length = tickMagnitude j a / 50 ∧
      device = segs.flatMap (fun s => s.1 ++ [s.2]) ++ d' ∧
      w'.PortFree = w.PortFree ∧
      w'.trace = w.trace ++
        (if tickMagnitude j a % 50 ≠ 0 then moveCommandEvents j a (tickMagnitude j a % 50)
          else []) ++
        segs.flatMap (fun s => queryEvents [j.JointToMove, 63, 10, 13, 0] (s.1 ++ [s.2]) ++
          moveCommandEvents j a 50) := by
  rw [Move_of_accepted j w device a hin (Ne.symm hne), wholeGroups_eq j a hrange,
    afterOddGroup_trace j w a hrange] at hret
  split at hret
  · cases hret
  · rename_i v w2 d2 hloop
    cases hret
    obtain ⟨segs, h1, h2, h3⟩ := wholeGroupsLoop_ok_shape _ _ _ _ _ _ _ _ hloop
    refine ⟨segs, h1, h2, by rw [h3], ?_⟩
    rw [h3]
    rfl

theorem itoa_unpadded : ∀ t : Nat, t < 51 → 0 < t →
    decimalValue (cstr (_itoa_s (Int.ofNat t))) = some t ∧
      (cstr (_itoa_s (Int.ofNat t))).head? ≠ some 48 := by
  decide!

theorem moveCommandEvents_bytes (j : JointMove) (a : ℚ) (hJ : j.JointToMove ≠ 0)
    (t : Nat) (h0 : 0 < t) (h50 : t ≤ 50) :
    ∃ ds, moveCommandEvents j a t =
        [Event.sendString (j.JointToMove :: (if a > j.CurrentPosition then 43 else 45) :: ds),
          Event.sendString [10, 13]] ∧
      decimalValue ds = some t ∧ ds.head? ≠ some 48 ∧
      sentBytes (moveCommandEvents j a t) =
        j.JointToMove :: (if a > j.CurrentPosition then 43 else 45) :: ds ++ [10, 13] := by
  have hd : movementDirection j a ≠ 0 := by
    rcases movementDirection_cases j a with h | h <;> rw [h] <;> decide
  have hcmd := cstr_strcat_s j.JointToMove (movementDirection j a) hJ hd (_itoa_s (Int.ofNat t))
  have hnl : cstr [10, 13, 0] = [10, 13] := by decide
  obtain ⟨h1, h2⟩ := itoa_unpadded t (by omega) h0
  refine ⟨cstr (_itoa_s (Int.ofNat t)), ?_, h1, h2, ?_⟩
  · unfold moveCommandEvents
    rw [hcmd, hnl]
    rfl
  · unfold moveCommandEvents
    rw [hcmd, hnl]
    simp [sentBytes, movementDirection]

theorem constructor_JointToMove (Joint : Int) (U L R : ℚ) (w : World) (device : List Int)
    (ls : Bool) (H : ℚ) :
    (JointMove.JointMove Joint U L R w device ls H).controller.JointToMove = toupper Joint := by
  unfold JointMove.JointMove
  simp only
  split
  · rw [Home_controller]
  · rfl

theorem moveCommandEvents_whole_group (j : JointMove) (a : ℚ) (hJ : j.JointToMove ≠ 0) :
    moveCommandEvents j a 50 =
      [Event.sendString [j.JointToMove, (if a > j.CurrentPosition then 43 else 45), 53, 48],
        Event.sendString [10, 13]] := by
  have hd : movementDirection j a ≠ 0 := by
    rcases movementDirection_cases j a with h | h <;> rw [h] <;> decide
  unfold moveCommandEvents
  rw [cstr_strcat_s j.JointToMove (movementDirection j a) hJ hd]
  have h1 : cstr (_itoa_s (Int.ofNat 50)) = [53, 48] := by decide
  have h2 : cstr [10, 13, 0] = [10, 13] := by decide
  rw [h1, h2]
  rfl

/-- C11. An accepted `Move` to a new angle returns whenever the device supplies
the responses that end its waits, and the transmissions of a returning `Move` are
the command for the odd group (when there is one) and, after its status queries,
the command for each whole group of 50; the command for `t` ticks is the joint
identifier, `+` when the angle is above `CurrentPosition` and `-` otherwise, the
decimal digits of `t` without padding, and then the line feed and the carriage
return.  The joint identifier is the upper-cased constructor argument. -/
theorem Move_command_bytes (j : JointMove) (w : World) (device : List Int) (a : ℚ)
    (hJ : j.JointToMove ≠ 0)
    (hin : j.LowerBound < a ∧ a < j.UpperBound) (hne : a ≠ j.CurrentPosition)
    (hrange : tickMagnitude j a ≤ 2147483647) :
    (tickMagnitude j a / 50 ≤ device.countP belowReplenish →
      ∃ j' w' d', j.Move w device a = Outcome.returned 0 j' w' d') ∧
    (∀ r j' w' d', j.Move w device a = Outcome.returned r j' w' d' →
      ∃ (segs : List (List Int × Int)) (ds : List Int),
        segs.length = tickMagnitude j a / 50 ∧
        (tickMagnitude j a % 50 ≠ 0 →
          decimalValue ds = some (tickMagnitude j a % 50) ∧ ds.head? ≠ some 48) ∧
        w'.trace = w.trace ++
          (if tickMagnitude j a % 50 ≠ 0 then
            [Event.sendString
                (j.JointToMove :: (if a > j.CurrentPosition then 43 else 45) :: ds),
              Event.sendString [10, 13]]
            else []) ++
          segs.flatMap (fun s =>
            queryEvents [j.JointToMove, 63, 10, 13, 0] (s.1 ++ [s.2]) ++
              [Event.sendString
                  [j.JointToMove, (if a > j.CurrentPosition then 43 else 45), 53, 48],
                Event.sendString [10, 13]])) ∧
    (∀ (d : Int) (ds : List Int),
      sentBytes [Event.sendString (j.JointToMove :: d :: ds), Event.sendString [10, 13]] =
        j.JointToMove :: d :: ds ++ [10, 13]) ∧
    (decimalValue [53, 48] = some 50 ∧ ([53, 48] : List Int).head? ≠ some 48) ∧
    (∀ (Joint : Int) (U L R : ℚ) (w0 : World) (dev : List Int) (ls : Bool) (H : ℚ),
      (JointMove.JointMove Joint U L R w0 dev ls H).controller.JointToMove = toupper Joint) := by
  refine ⟨?_, ?_, fun d ds => by simp [sentBytes], by decide, constructor_JointToMove⟩
  · intro hcount
    have hmove := Move_of_accepted j w device a hin (Ne.symm hne)
    rw [wholeGroups_eq j a hrange] at hmove
    obtain ⟨w', d', h⟩ := wholeGroupsLoop_returns [j.JointToMove, 63, 10, 13, 0]
      (strcat_s [j.JointToMove, movementDirection j a, 0] (_itoa_s (Int.ofNat GROUP_SIZE)))
      [10, 13, 0] (tickMagnitude j a / 50) (afterOddGroup j w a) device hcount
    rw [h] at hmove
    exact ⟨_, _, _, hmove⟩
  · intro r j' w' d' hret
    obtain ⟨segs, h1, _, _, h4⟩ :=
      Move_returned_shape j w device a r j' w' d' hin hne hrange hret
    rw [moveCommandEvents_whole_group j a hJ] at h4
    by_cases hrem : tickMagnitude j a % 50 ≠ 0
    · obtain ⟨ds, hds, hval, hhead, _⟩ :=
        moveCommandEvents_bytes j a hJ (tickMagnitude j a % 50) (by omega) (by omega)
      refine ⟨segs, ds, h1, fun _ => ⟨hval, hhead⟩, ?_⟩
      rw [h4, if_pos hrem, if_pos hrem, hds]
    · refine ⟨segs, [], h1, fun h => absurd h hrem, ?_⟩
      rw [h4, if_neg hrem, if_neg hrem]

theorem Move_command_bytes_witness :
    jointD.Move ⟨true, []⟩ [52, 42] (7 / 10) =
      Outcome.returned 0 { jointD with HomeDeviation := 70, CurrentPosition := 7 / 10 }
        ⟨true, [Event.sendString [68, 43, 50, 48], Event.sendString [10, 13],
          Event.sendString [68, 63, 10, 13], Event.getChar 52, Event.Sleep 10,
          Event.sendString [68, 63, 10, 13], Event.getChar 42,
          Event.sendString [68, 43, 53, 48], Event.sendString [10, 13]]⟩ [] ∧
    (∃ j' w' d', jointD.Move ⟨true, []⟩ [52, 42] (7 / 10) = Outcome.returned 0 j' w' d') ∧
    ∃ (segs : List (List Int × Int)) (ds : List Int),
      segs.length = tickMagnitude jointD (7 / 10) / 50 ∧
      (tickMagnitude jointD (7 / 10) % 50 ≠ 0 →
        decimalValue ds = some (tickMagnitude jointD (7 / 10) % 50) ∧ ds.head? ≠ some 48) ∧
      [Event.sendString [68, 43, 50, 48], Event.sendString [10, 13],
        Event.sendString [68, 63, 10, 13], Event.getChar 52, Event.Sleep 10,
        Event.sendString [68, 63, 10, 13], Event.getChar 42,
        Event.sendString [68, 43, 53, 48], Event.sendString [10, 13]] = [] ++
        (if tickMagnitude jointD (7 / 10) % 50 ≠ 0 then
          [Event.sendString
              (jointD.JointToMove ::
                (if (7 / 10 : ℚ) > jointD.CurrentPosition then 43 else 45) :: ds),
            Event.sendString [10, 13]]
          else []) ++
        segs.flatMap (fun s =>
          queryEvents [jointD.JointToMove, 63, 10, 13, 0] (s.1 ++ [s.2]) ++
            [Event.sendString
                [jointD.JointToMove,
                  (if (7 / 10 : ℚ) > jointD.CurrentPosition then 43 else 45), 53, 48],
              Event.sendString [10, 13]]) :=
  ⟨by decide!,
    (Move_command_bytes jointD ⟨true, []⟩ [52, 42] (7 / 10)
      (by decide) (by decide!) (by decide!) (by decide!)).1 (by decide!),
    (Move_command_bytes jointD ⟨true, []⟩ [52, 42] (7 / 10)
      (by decide) (by decide!) (by decide!) (by decide!)).2.1 0
      { jointD with HomeDeviation := 70, CurrentPosition := 7 / 10 }
      ⟨true, [Event.sendString [68, 43, 50, 48], Event.sendString [10, 13],
          Event.sendString [68, 63, 10, 13], Event.getChar 52, Event.Sleep 10,
          Event.sendString [68, 63, 10, 13], Event.getChar 42,
          Event.sendString [68, 43, 53, 48], Event.sendString [10, 13]]⟩ [] (by decide!)⟩

theorem queryEvents_last (Q : List Int) (pre : List Int) (b : Int) :
    ∃ front, queryEvents Q (pre ++ [b]) =
      front ++ [Event.sendString (cstr Q), Event.getChar (toChar b)] := by
  cases pre with
  | nil => exact ⟨[], rfl⟩
  | cons c pre =>
    refine ⟨[Event.sendString (cstr Q), Event.getChar (toChar c)] ++
      pre.flatMap (requeryEvents Q) ++ [Event.Sleep 10], ?_⟩
    simp [queryEvents, requeryEvents]

/-- C13. In a returning `Move` the command of the odd group, when there is one,
comes first and nothing is queried or read before it; each whole group ends with
the status query, the read of its one response byte, and right after it the group
command; and with no whole group nothing is queried or read at all. -/
theorem Move_queries_before_whole_groups_only (j : JointMove) (w : World)
    (device : List Int) (a : ℚ) (r : Int) (j' : JointMove) (w' : World) (d' : List Int)
    (hJ : j.JointToMove ≠ 0)
    (hin : j.LowerBound < a ∧ a < j.UpperBound) (hne : a ≠ j.CurrentPosition)
    (hrange : tickMagnitude j a ≤ 2147483647)
    (hret : j.Move w device a = Outcome.returned r j' w' d') :
    ∃ segs : List (List Int × Int), segs.length = tickMagnitude j a / 50 ∧
      device = segs.flatMap (fun s => s.1 ++ [s.2]) ++ d' ∧
      w'.trace = w.trace ++
        (if tickMagnitude j a % 50 ≠ 0 then moveCommandEvents j a (tickMagnitude j a % 50)
          else []) ++
        segs.flatMap (fun s => queryEvents [j.JointToMove, 63, 10, 13, 0] (s.1 ++ [s.2]) ++
          moveCommandEvents j a 50) ∧
      (∀ s ∈ segs, ∃ front,
        queryEvents [j.JointToMove, 63, 10, 13, 0] (s.1 ++ [s.2]) ++ moveCommandEvents j a 50 =
          front ++ [Event.sendString [j.JointToMove, 63, 10, 13], Event.getChar (toChar s.2),
            Event.sendString [j.JointToMove, (if a > j.CurrentPosition then 43 else 45), 53, 48],
            Event.sendString [10, 13]]) ∧
      (tickMagnitude j a / 50 = 0 → d' = device ∧
        w'.trace = w.trace ++
          (if tickMagnitude j a % 50 ≠ 0 then moveCommandEvents j a (tickMagnitude j a % 50)
            else [])) := by
  obtain ⟨segs, h1, h2, _, h4⟩ := Move_returned_shape j w device a r j' w' d' hin hne hrange hret
  have hQ : cstr [j.JointToMove, 63, 10, 13, 0] = [j.JointToMove, 63, 10, 13] :=
    cstr_append_nul [j.JointToMove, 63, 10, 13] (by
      intro c hc; simp at hc; rcases hc with h | h | h | h <;> simp [h, hJ]) []
  refine ⟨segs, h1, h2, h4, ?_, ?_⟩
  · intro s _
    obtain ⟨front, hf⟩ := queryEvents_last [j.JointToMove, 63, 10, 13, 0] s.1 s.2
    obtain ⟨ds, hds, _, _, _⟩ := moveCommandEvents_bytes j a hJ 50 (by decide) (by decide)
    have hd : movementDirection j a ≠ 0 := by
      rcases movementDirection_cases j a with h | h <;> rw [h] <;> decide
    have h50 : moveCommandEvents j a 50 =
        [Event.sendString [j.JointToMove, (if a > j.CurrentPosition then 43 else 45), 53, 48],
          Event.sendString [10, 13]] := by
      unfold moveCommandEvents
      rw [cstr_strcat_s j.JointToMove (movementDirection j a) hJ hd]
      have h1 : cstr (_itoa_s (Int.ofNat 50)) = [53, 48] := by decide
      have h2 : cstr [10, 13, 0] = [10, 13] := by decide
      rw [h1, h2]
      rfl
    refine ⟨front, ?_⟩
    rw [hf, hQ, h50]
    simp
  · intro h0
    have hnil : segs = [] := List.length_eq_zero.mp (by rw [h1, h0])
    subst hnil
    simp only [List.flatMap_nil, List.nil_append, List.append_nil] at h2 h4
    exact ⟨h2.symm, h4⟩

theorem Move_queries_before_whole_groups_only_witness :
    ∃ segs : List (List Int × Int), segs.length = tickMagnitude jointD (7 / 10) / 50 ∧
      [52, 42] = segs.flatMap (fun s => s.1 ++ [s.2]) ++ [] ∧
      [Event.sendString [68, 43, 50, 48], Event.sendString [10, 13],
        Event.sendString [68, 63, 10, 13], Event.getChar 52, Event.Sleep 10,
        Event.sendString [68, 63, 10, 13], Event.getChar 42,
        Event.sendString [68, 43, 53, 48], Event.sendString [10, 13]] = [] ++
        (if tickMagnitude jointD (7 / 10) % 50 ≠ 0 then
          moveCommandEvents jointD (7 / 10) (tickMagnitude jointD (7 / 10) % 50)
          else []) ++
        segs.flatMap (fun s => queryEvents [jointD.JointToMove, 63, 10, 13, 0] (s.1 ++ [s.2]) ++
          moveCommandEvents jointD (7 / 10) 50) ∧
      (∀ s ∈ segs, ∃ front,
        queryEvents [jointD.JointToMove, 63, 10, 13, 0] (s.1 ++ [s.2]) ++
            moveCommandEvents jointD (7 / 10) 50 =
          front ++ [Event.sendString [jointD.JointToMove, 63, 10, 13],
            Event.getChar (toChar s.2),
            Event.sendString [jointD.JointToMove,
              (if (7 / 10 : ℚ) > jointD.CurrentPosition then 43 else 45), 53, 48],
            Event.sendString [10, 13]]) ∧
      (tickMagnitude jointD (7 / 10) / 50 = 0 → ([] : List Int) = [52, 42] ∧
        [Event.sendString [68, 43, 50, 48], Event.sendString [10, 13],
          Event.sendString [68, 63, 10, 13], Event.getChar 52, Event.Sleep 10,
          Event.sendString [68, 63, 10, 13], Event.getChar 42,
          Event.sendString [68, 43, 53, 48], Event.sendString [10, 13]] = [] ++
          (if tickMagnitude jointD (7 / 10) % 50 ≠ 0 then
            moveCommandEvents jointD (7 / 10) (tickMagnitude jointD (7 / 10) % 50)
            else [])) :=
  Move_queries_before_whole_groups_only jointD ⟨true, []⟩ [52, 42] (7 / 10) 0
    { jointD with HomeDeviation := 70, CurrentPosition := 7 / 10 }
    ⟨true, [Event.sendString [68, 43, 50, 48], Event.sendString [10, 13],
        Event.sendString [68, 63, 10, 13], Event.getChar 52, Event.Sleep 10,
        Event.sendString [68, 63, 10, 13], Event.getChar 42,
        Event.sendString [68, 43, 53, 48], Event.sendString [10, 13]]⟩ []
    (by decide) (by decide!) (by decide!) (by decide!) (by decide!)

theorem Round_monotone {x y : ℚ} (hxy : x ≤ y) (hx : -2147483648 ≤ x) (hy : y ≤ 2147483647) :
    JointMove.Round x ≤ JointMove.Round y := by
  have hx2 : x ≤ 2147483647 := le_trans hxy hy
  have hy1 : -2147483648 ≤ y := le_trans hx hxy
  by_cases h0 : 0 ≤ x
  · have hy0 : 0 ≤ y := le_trans h0 hxy
    rw [Round_nonneg h0 hx2, Round_nonneg hy0 hy]
    exact Int.floor_le_floor (by linarith)
  · have hxn : x < 0 := not_le.mp h0
    rw [Round_neg hxn hx]
    by_cases hy0 : 0 ≤ y
    · rw [Round_nonneg hy0 hy]
      have h1 : ⌈x - 1 / 2⌉ ≤ (0 : Int) := Int.ceil_le.mpr (by push_cast; linarith)
      have h2 : (0 : Int) ≤ ⌊y + 1 / 2⌋ := Int.floor_nonneg.mpr (by linarith)
      exact le_trans h1 h2
    · rw [Round_neg (not_le.mp hy0) hy1]
      exact Int.ceil_le_ceil (by linarith)

/-- C21. For a positive resolution and `HomeDeviation = Round(CurrentPosition /
Resolution)`, with both tick positions in the `int` range, the direction that
`Move` chooses agrees with the sign of the tick delta: `+` is chosen exactly when
the angle is above `CurrentPosition`, and then the delta is not negative; otherwise
`-` is chosen and the delta is not positive. -/
theorem Move_direction_agrees_with_delta (j : JointMove) (a : ℚ)
    (hres : 0 < j.Resolution)
    (hinv : j.HomeDeviation = JointMove.Round (j.CurrentPosition / j.Resolution))
    (hin : j.LowerBound < a ∧ a < j.UpperBound) (hne : a ≠ j.CurrentPosition)
    (ha : -2147483648 ≤ a / j.Resolution ∧ a / j.Resolution ≤ 2147483647)
    (hc : -2147483648 ≤ j.CurrentPosition / j.Resolution ∧
      j.CurrentPosition / j.Resolution ≤ 2147483647) :
    movementDirection j a = (if a > j.CurrentPosition then 43 else 45) ∧
    (movementDirection j a = 43 →
      0 ≤ JointMove.Round (a / j.Resolution) - j.HomeDeviation) ∧
    (movementDirection j a = 45 →
      JointMove.Round (a / j.Resolution) - j.HomeDeviation ≤ 0) ∧
    (∀ (w : World) (device : List Int),
      j.Move w device a =
        match wholeGroupsLoop [j.JointToMove, 63, 10, 13, 0]
            (strcat_s [j.JointToMove, movementDirection j a, 0] (_itoa_s (Int.ofNat GROUP_SIZE)))
            [10, 13, 0] (wholeGroups j a) (afterOddGroup j w a) device with
        | Step.blocked w2 => Outcome.blocked j w2
        | Step.ok _ w2 device2 =>
          Outcome.returned 0
            { j with HomeDeviation := desiredPosition j a, CurrentPosition := a }
            w2 device2) := by
  refine ⟨rfl, ?_, ?_, fun w device => Move_of_accepted j w device a hin (Ne.symm hne)⟩
  · intro hdir
    have hgt : a > j.CurrentPosition := by
      by_contra hng
      unfold movementDirection at hdir
      rw [if_neg hng] at hdir
      exact absurd hdir (by decide)
    have hle : j.CurrentPosition / j.Resolution ≤ a / j.Resolution :=
      div_le_div_of_nonneg_right hgt.le hres.le
    have := Round_monotone hle hc.1 ha.2
    rw [hinv]
    omega
  · intro hdir
    have hng : ¬ a > j.CurrentPosition := by
      intro hgt
      unfold movementDirection at hdir
      rw [if_pos hgt] at hdir
      exact absurd hdir (by decide)
    have hle : a / j.Resolution ≤ j.CurrentPosition / j.Resolution :=
      div_le_div_of_nonneg_right (not_lt.mp hng) hres.le
    have := Round_monotone hle ha.1 hc.2
    rw [hinv]
    omega

theorem Move_direction_agrees_with_delta_witness :
    movementDirection { jointD with HomeDeviation := 50, CurrentPosition := 1 / 2 } (1 / 5) = 45 ∧
    JointMove.Round ((1 / 5) / (1 / 100)) - 50 ≤ 0 :=
  ⟨by decide!,
    (Move_direction_agrees_with_delta
      { jointD with HomeDeviation := 50, CurrentPosition := 1 / 2 } (1 / 5)
      (by decide!) (by decide!) (by decide!) (by decide!) (by decide!) (by decide!)).2.2.1
      (by decide!)⟩

theorem signedTickSum_append (J : Int) (xs ys : List Event) :
    signedTickSum J (xs ++ ys) = signedTickSum J xs + signedTickSum J ys := by
  unfold signedTickSum
  rw [List.filterMap_append, List.sum_append]

theorem signedTickSum_queryEvents (J : Int) (cs : List Int) :
    signedTickSum J (queryEvents [J, 63, 10, 13, 0] cs) = 0 := by
  have hq : signedCommandTicks J (Event.sendString (cstr [J, 63, 10, 13, 0])) = none := by
    by_cases hJ : J = 0
    · subst hJ; rfl
    · have : cstr [J, 63, 10, 13, 0] = [J, 63, 10, 13] :=
        cstr_append_nul [J, 63, 10, 13] (by
          intro c hc; simp at hc; rcases hc with h | h | h | h <;> simp [h, hJ]) []
      rw [this]
      simp [signedCommandTicks]
  have hg : ∀ c, signedCommandTicks J (Event.getChar c) = none := fun _ => rfl
  have hs : ∀ ms, signedCommandTicks J (Event.Sleep ms) = none := fun _ => rfl
  have hre : ∀ l : List Int, (l.flatMap (requeryEvents [J, 63, 10, 13, 0])).filterMap
      (signedCommandTicks J) = [] := by
    intro l
    induction l with
    | nil => rfl
    | cons x l ih =>
      rw [List.flatMap_cons, List.filterMap_append, ih]
      simp [requeryEvents, hq, hg, hs]
  cases cs with
  | nil => rfl
  | cons c cs =>
    unfold signedTickSum queryEvents
    rw [List.filterMap_append, hre]
    simp [hq, hg]

theorem signedTickSum_moveCommandEvents (j : JointMove) (a : ℚ) (hJ : j.JointToMove ≠ 0)
    (t : Nat) (h0 : 0 < t) (h50 : t ≤ 50) :
    signedTickSum j.JointToMove (moveCommandEvents j a t) =
      if a > j.CurrentPosition then (t : Int) else - (t : Int) := by
  obtain ⟨ds, h1, h2, _, _⟩ := moveCommandEvents_bytes j a hJ t h0 h50
  have hnl : signedCommandTicks j.JointToMove (Event.sendString [10, 13]) = none := by
    simp [signedCommandTicks]
  rw [h1]
  unfold signedTickSum
  by_cases hgt : a > j.CurrentPosition
  · have hc : signedCommandTicks j.JointToMove
        (Event.sendString (j.JointToMove :: (if a > j.CurrentPosition then 43 else 45) :: ds)) =
        some (t : Int) := by
      simp [signedCommandTicks, hgt, h2]
    rw [List.filterMap_cons_some hc, List.filterMap_cons_none hnl, if_pos hgt]
    simp
  · have hc : signedCommandTicks j.JointToMove
        (Event.sendString (j.JointToMove :: (if a > j.CurrentPosition then 43 else 45) :: ds)) =
        some (- (t : Int)) := by
      simp [signedCommandTicks, hgt, h2]
    rw [List.filterMap_cons_some hc, List.filterMap_cons_none hnl, if_neg hgt]
    simp

theorem signedTickSum_wholeGroups (j : JointMove) (a : ℚ) (hJ : j.JointToMove ≠ 0)
    (segs : List (List Int × Int)) :
    signedTickSum j.JointToMove
      (segs.flatMap (fun s => queryEvents [j.JointToMove, 63, 10, 13, 0] (s.1 ++ [s.2]) ++
        moveCommandEvents j a 50)) =
      (segs.length : Int) * (if a > j.CurrentPosition then 50 else -50) := by
  induction segs with
  | nil => simp [signedTickSum]
  | cons s segs ih =>
    rw [List.flatMap_cons, signedTickSum_append, signedTickSum_append, ih,
      signedTickSum_queryEvents,
      signedTickSum_moveCommandEvents j a hJ 50 (by decide) (by decide)]
    simp only [List.length_cons]
    split <;> push_cast <;> ring

theorem Round_bound {x : ℚ} (h1 : -1073741823 ≤ x) (h2 : x ≤ 1073741823) :
    -1073741823 ≤ JointMove.Round x ∧ JointMove.Round x ≤ 1073741823 := by
  have ha := Round_monotone h1 (by norm_num) (by linarith)
  have hb := Round_monotone h2 (by linarith) (by norm_num)
  have hl : JointMove.Round (-1073741823 : ℚ) = -1073741823 := by
    have := Round_intCast (-1073741823) (by decide) (by decide)
    push_cast at this
    exact this
  have hu : JointMove.Round (1073741823 : ℚ) = 1073741823 := by
    have := Round_intCast 1073741823 (by decide) (by decide)
    push_cast at this
    exact this
  rw [hl] at ha
  rw [hu] at hb
  exact ⟨ha, hb⟩

theorem Move_step (j : JointMove) (w : World) (device : List Int) (a : ℚ)
    (j' : JointMove) (w' : World) (d' : List Int)
    (hJ : j.JointToMove ≠ 0) (hres : 0 < j.Resolution)
    (hfit : -1073741823 ≤ j.LowerBound / j.Resolution ∧
      j.UpperBound / j.Resolution ≤ 1073741823)
    (hinv : j.HomeDeviation = JointMove.Round (j.CurrentPosition / j.Resolution))
    (hcur : -1073741823 ≤ j.CurrentPosition / j.Resolution ∧
      j.CurrentPosition / j.Resolution ≤ 1073741823)
    (hout : (∃ r, j.Move w device a = Outcome.returned r j' w' d') ∨
      (∃ e, j.Move w device a = Outcome.thrown e j' w' d')) :
    j'.JointToMove = j.JointToMove ∧ j'.Resolution = j.Resolution ∧
    j'.LowerBound = j.LowerBound ∧ j'.UpperBound = j.UpperBound ∧
    j'.HomeDeviation = JointMove.Round (j'.CurrentPosition / j'.Resolution) ∧
    (-1073741823 ≤ j'.CurrentPosition / j'.Resolution ∧
      j'.CurrentPosition / j'.Resolution ≤ 1073741823) ∧
    j'.CurrentPosition = (if j.LowerBound < a ∧ a < j.UpperBound then a
      else j.CurrentPosition) ∧
    ∃ new, w'.trace = w.trace ++ new ∧
      signedTickSum j.JointToMove new = j'.HomeDeviation - j.HomeDeviation := by
  by_cases hin : j.LowerBound < a ∧ a < j.UpperBound
  · by_cases hne : a = j.CurrentPosition
    · subst hne
      rw [Move_of_same j w device hin] at hout
      rcases hout with ⟨r, h⟩ | ⟨e, h⟩
      · cases h
        exact ⟨rfl, rfl, rfl, rfl, hinv, hcur, by rw [if_pos hin],
          [], by simp, by simp [signedTickSum]⟩
      · cases h
    · rcases hout with ⟨r, hret⟩ | ⟨e, h⟩
      swap
      · exact absurd h (Move_not_thrown j w device a hin e j' w' d')
      have hal : -1073741823 ≤ a / j.Resolution :=
        le_trans hfit.1 (div_le_div_of_nonneg_right hin.1.le hres.le)
      have hau : a / j.Resolution ≤ 1073741823 :=
        le_trans (div_le_div_of_nonneg_right hin.2.le hres.le) hfit.2
      obtain ⟨hr1, hr2⟩ := Round_bound hal hau
      obtain ⟨hd1, hd2⟩ := Round_bound hcur.1 hcur.2
      rw [← hinv] at hd1 hd2
      have hrange : tickMagnitude j a ≤ 2147483647 := by
        unfold tickMagnitude
        omega
      obtain ⟨segs, hlen, _, _, htrace⟩ :=
        Move_returned_shape j w device a r j' w' d' hin hne hrange hret
      have hj' : j' = { j with HomeDeviation := JointMove.Round (a / j.Resolution),
                               CurrentPosition := a } := by
        rw [Move_of_accepted j w device a hin (Ne.symm hne)] at hret
        split at hret
        · cases hret
        · cases hret
          rfl
      have hsign : (if a > j.CurrentPosition then (tickMagnitude j a : Int)
          else - (tickMagnitude j a : Int)) =
          JointMove.Round (a / j.Resolution) - j.HomeDeviation := by
        by_cases hgt : a > j.CurrentPosition
        · have hle : j.CurrentPosition / j.Resolution ≤ a / j.Resolution :=
            div_le_div_of_nonneg_right hgt.le hres.le
          have hm := Round_monotone hle (by linarith [hcur.1]) (by linarith)
          rw [← hinv] at hm
          rw [if_pos hgt]
          unfold tickMagnitude
          omega
        · have hle : a / j.Resolution ≤ j.CurrentPosition / j.Resolution :=
            div_le_div_of_nonneg_right (not_lt.mp hgt) hres.le
          have hm := Round_monotone hle (by linarith) (by linarith [hcur.2])
          rw [← hinv] at hm
          rw [if_neg hgt]
          unfold tickMagnitude
          omega
      subst hj'
      refine ⟨rfl, rfl, rfl, rfl, rfl, ⟨hal, hau⟩, by rw [if_pos hin],
        (if tickMagnitude j a % 50 ≠ 0 then moveCommandEvents j a (tickMagnitude j a % 50)
          else []) ++
        segs.flatMap (fun s => queryEvents [j.JointToMove, 63, 10, 13, 0] (s.1 ++ [s.2]) ++
          moveCommandEvents j a 50), ?_, ?_⟩
      · rw [htrace, List.append_assoc]
      · rw [signedTickSum_append, signedTickSum_wholeGroups j a hJ segs, hlen]
        have hodd : signedTickSum j.JointToMove
            (if tickMagnitude j a % 50 ≠ 0 then
              moveCommandEvents j a (tickMagnitude j a % 50) else []) =
            if a > j.CurrentPosition then ((tickMagnitude j a % 50 : Nat) : Int)
            else - ((tickMagnitude j a % 50 : Nat) : Int) := by
          by_cases hrem : tickMagnitude j a % 50 ≠ 0
          · rw [if_pos hrem]
            exact signedTickSum_moveCommandEvents j a hJ _ (by omega) (by omega)
          · rw [if_neg hrem]
            have h0 : tickMagnitude j a % 50 = 0 := by omega
            rw [h0]
            simp [signedTickSum]
        rw [hodd]
        show _ = JointMove.Round (a / j.Resolution) - j.HomeDeviation
        rw [← hsign]
        split <;> push_cast <;> omega
  · rw [Move_of_violation j w device a hin] at hout
    rcases hout with ⟨r, h⟩ | ⟨e, h⟩
    · cases h
    · cases h
      exact ⟨rfl, rfl, rfl, rfl, hinv, hcur, by rw [if_neg hin],
        [], by simp, by simp [signedTickSum]⟩

theorem lastAccepted_cons_getD (L U : ℚ) (a : ℚ) (rest : List ℚ) (c : ℚ) :
    (lastAccepted L U (a :: rest)).getD c =
      (lastAccepted L U rest).getD (if L < a ∧ a < U then a else c) := by
  unfold lastAccepted
  by_cases h : L < a ∧ a < U
  · rw [List.filter_cons_of_pos (by simpa using h), List.getLast?_cons, if_pos h]
    cases (List.filter (fun a => decide (L < a ∧ a < U)) rest).getLast? <;> rfl
  · rw [List.filter_cons_of_neg (by simpa using h), if_neg h]

theorem moveSequence_invariant :
    ∀ (angles : List ℚ) (j : JointMove) (w : World) (device : List Int)
      (j' : JointMove) (w' : World) (d' : List Int),
      j.JointToMove ≠ 0 → 0 < j.Resolution →
      (-1073741823 ≤ j.LowerBound / j.Resolution ∧
        j.UpperBound / j.Resolution ≤ 1073741823) →
      j.HomeDeviation = JointMove.Round (j.CurrentPosition / j.Resolution) →
      (-1073741823 ≤ j.CurrentPosition / j.Resolution ∧
        j.CurrentPosition / j.Resolution ≤ 1073741823) →
      moveSequence j w device angles = some (j', w', d') →
      j'.JointToMove = j.JointToMove ∧ j'.Resolution = j.Resolution ∧
      j'.HomeDeviation = JointMove.Round (j'.CurrentPosition / j'.Resolution) ∧
      j'.CurrentPosition =
        (lastAccepted j.LowerBound j.UpperBound angles).getD j.CurrentPosition ∧
      ∃ new, w'.trace = w.trace ++ new ∧
        signedTickSum j.JointToMove new = j'.HomeDeviation - j.HomeDeviation := by
  intro angles
  induction angles with
  | nil =>
    intro j w device j' w' d' _ _ _ hinv _ hseq
    rw [moveSequence] at hseq
    cases hseq
    exact ⟨rfl, rfl, hinv, rfl, [], by simp, by simp [signedTickSum]⟩
  | cons a rest ih =>
    intro j w device j' w' d' hJ hres hfit hinv hcur hseq
    rw [moveSequence] at hseq
    have key : ∀ j1 w1 d1,
        ((∃ r, j.Move w device a = Outcome.returned r j1 w1 d1) ∨
          (∃ e, j.Move w device a = Outcome.thrown e j1 w1 d1)) →
        moveSequence j1 w1 d1 rest = some (j', w', d') →
        j'.JointToMove = j.JointToMove ∧ j'.Resolution = j.Resolution ∧
        j'.HomeDeviation = JointMove.Round (j'.CurrentPosition / j'.Resolution) ∧
        j'.CurrentPosition =
          (lastAccepted j.LowerBound j.UpperBound (a :: rest)).getD j.CurrentPosition ∧
        ∃ new, w'.trace = w.trace ++ new ∧
          signedTickSum j.JointToMove new = j'.HomeDeviation - j.HomeDeviation := by
      intro j1 w1 d1 hout hrest
      obtain ⟨s1, s2, s3, s4, s5, s6, s7, n1, s8, s9⟩ :=
        Move_step j w device a j1 w1 d1 hJ hres hfit hinv hcur hout
      obtain ⟨t1, t2, t3, t4, n2, t5, t6⟩ := ih j1 w1 d1 j' w' d'
        (by rw [s1]; exact hJ) (by rw [s2]; exact hres)
        (by rw [s2, s3, s4]; exact hfit) s5 s6 hrest
      refine ⟨by rw [t1, s1], by rw [t2, s2], t3, ?_, n1 ++ n2, ?_, ?_⟩
      · rw [t4, s3, s4, s7, lastAccepted_cons_getD]
      · rw [t5, s8, List.append_assoc]
      · rw [signedTickSum_append, s9, ← s1, t6]
        ring
    split at hseq
    · rename_i r j1 w1 d1 hm
      exact key j1 w1 d1 (Or.inl ⟨r, hm⟩) hseq
    · rename_i e j1 w1 d1 hm
      exact key j1 w1 d1 (Or.inr ⟨e, hm⟩) hseq
    · cases hseq

theorem constructor_controller (Joint : Int) (U L R : ℚ) (w : World) (device : List Int)
    (ls : Bool) (H : ℚ) :
    (JointMove.JointMove Joint U L R w device ls H).controller =
      { JointToMove := toupper Joint, UpperBound := U, LowerBound := L, HomePosition := H,
        HomeDeviation := 0, CurrentPosition := H, Resolution := R,
        SwitchMask := static_cast_char ((2 : ℚ) ^ (toupper Joint - 67)) } := by
  unfold JointMove.JointMove
  simp only
  split
  · rw [Home_controller]
  · rfl

/-- C22. For a controller constructed with home position 0, a positive
resolution, a joint identifier other than NUL and bounds whose tick positions fit
half the `int` range, after any sequence of `Move` calls that all return or throw,
the signed sum of the ticks of the move commands transmitted by these calls equals
`HomeDeviation`, which is `Round(a / Resolution)` for the last accepted angle `a`,
and 0 when no angle was accepted. -/
theorem Move_ticks_sum_to_HomeDeviation (Joint : Int) (U L R : ℚ) (w0 : World)
    (dev0 : List Int) (ls : Bool) (angles : List ℚ)
    (r1 : Int) (j1 : JointMove) (w1 : World) (d1 : List Int)
    (j : JointMove) (w : World) (d : List Int)
    (hJ : toupper Joint ≠ 0) (hR : 0 < R)
    (hfit : -1073741823 ≤ L / R ∧ U / R ≤ 1073741823)
    (hctor : JointMove.JointMove Joint U L R w0 dev0 ls 0 = Outcome.returned r1 j1 w1 d1)
    (hseq : moveSequence j1 w1 d1 angles = some (j, w, d)) :
    ∃ new, w.trace = w1.trace ++ new ∧
      signedTickSum j.JointToMove new = j.HomeDeviation ∧
      j.HomeDeviation = JointMove.Round ((lastAccepted L U angles).getD 0 / R) ∧
      (lastAccepted L U angles = none → j.HomeDeviation = 0) := by
  have hc := constructor_controller Joint U L R w0 dev0 ls 0
  rw [hctor] at hc
  have hj1 : j1 =
      { JointToMove := toupper Joint, UpperBound := U, LowerBound := L,
        HomePosition := 0, HomeDeviation := 0, CurrentPosition := 0, Resolution := R,
        SwitchMask := static_cast_char ((2 : ℚ) ^ (toupper Joint - 67)) } := hc
  have hround0 : JointMove.Round ((0 : ℚ) / R) = 0 := by
    rw [zero_div]
    have := Round_intCast 0 (by decide) (by decide)
    simpa using this
  subst hj1
  obtain ⟨t1, t2, t3, t4, new, t5, t6⟩ := moveSequence_invariant angles _ w1 d1 j w d
    hJ hR hfit hround0.symm (by simp only [zero_div]; constructor <;> norm_num) hseq
  simp only at t1 t2 t4 t6
  have hdev : j.HomeDeviation = JointMove.Round ((lastAccepted L U angles).getD 0 / R) := by
    rw [t3, t4, t2]
  refine ⟨new, t5, ?_, hdev, ?_⟩
  · rw [t1, t6]; ring
  · intro hnone
    rw [hdev, hnone]
    exact hround0

theorem Move_ticks_sum_to_HomeDeviation_witness :
    ∃ new,
      [Event.sendChar 73, Event.getChar 34,
        Event.sendString [68, 43, 50, 48, 10, 13], Event.Sleep 300,
        Event.sendChar 73, Event.getChar 32, Event.sendString [68, 88, 10, 13],
        Event.sendString [68, 43, 50, 48], Event.sendString [10, 13],
        Event.sendString [68, 63, 10, 13], Event.getChar 42,
        Event.sendString [68, 43, 53, 48], Event.sendString [10, 13],
        Event.sendString [68, 45, 52, 48], Event.sendString [10, 13],
        Event.sendString [68, 63, 10, 13], Event.getChar 42,
        Event.sendString [68, 45, 53, 48], Event.sendString [10, 13]] =
        [Event.sendChar 73, Event.getChar 34,
          Event.sendString [68, 43, 50, 48, 10, 13], Event.Sleep 300,
          Event.sendChar 73, Event.getChar 32, Event.sendString [68, 88, 10, 13]] ++ new ∧
      signedTickSum 68 new = -20 ∧
      (-20 : Int) = JointMove.Round ((lastAccepted (-1) 1 [7 / 10, 3 / 2, -1 / 5]).getD 0 /
        (1 / 100)) ∧
      (lastAccepted (-1) 1 [7 / 10, 3 / 2, -1 / 5] = none → (-20 : Int) = 0) :=
  Move_ticks_sum_to_HomeDeviation 68 1 (-1) (1 / 100) ⟨false, []⟩ [34, 32, 42, 42, 7] true
    [7 / 10, 3 / 2, -1 / 5] 0 jointD
    ⟨true, [Event.sendChar 73, Event.getChar 34,
      Event.sendString [68, 43, 50, 48, 10, 13], Event.Sleep 300,
      Event.sendChar 73, Event.getChar 32, Event.sendString [68, 88, 10, 13]]⟩ [42, 42, 7]
    { jointD with HomeDeviation := -20, CurrentPosition := -1 / 5 }
    ⟨true, [Event.sendChar 73, Event.getChar 34,
      Event.sendString [68, 43, 50, 48, 10, 13], Event.Sleep 300,
      Event.sendChar 73, Event.getChar 32, Event.sendString [68, 88, 10, 13],
      Event.sendString [68, 43, 50, 48], Event.sendString [10, 13],
      Event.sendString [68, 63, 10, 13], Event.getChar 42,
      Event.sendString [68, 43, 53, 48], Event.sendString [10, 13],
      Event.sendString [68, 45, 52, 48], Event.sendString [10, 13],
      Event.sendString [68, 63, 10, 13], Event.getChar 42,
      Event.sendString [68, 45, 53, 48], Event.sendString [10, 13]]⟩ [7]
    (by decide) (by decide!) (by decide!) (by decide!) (by decide!)

end TLeyson_Robot
